import Mathlib

/-!
Verification of the Proxmox renting manager's session-reconciliation core.

The definitions below are a shallow embedding of the Python source:

* `src/manager/models/database.py`   — `VMSession`, `TrackedVM`, `ProxmoxNode`
* `src/manager/services/ingest_service.py` — `register_node`, `handle_vm_start`,
  `handle_vm_stop`, `handle_vm_states`, `_update_tracked_vm`, `heartbeat`,
  `request_force_sync`, `check_force_sync`
* `src/manager/services/time_tracker.py` — `get_vm_usage`
* `src/client/main.py` — `poll_vm_states` (agent state-diff loop)

Timestamps are modelled as integers (seconds); `datetime.utcnow()` becomes an
explicit `now : Int` parameter.  Optional SQL columns become `Option`.
ORM bookkeeping columns (`created_at`, `updated_at`, the correlator columns
`start_upid` / `stop_upid`) are not consulted by any of the modelled logic and
are omitted.  SQLAlchemy's `scalar_one_or_none` is modelled by `List.find?`
(the unique indexes `idx_tracked_vm_node` and the single-open-session
discipline make the row unique whenever the code runs it).
-/

/-- Row of `vm_sessions` (database.py, class VMSession). -/
structure VMSession where
  id : Nat
  vm_id : String
  node : String
  vm_type : String
  start_time : Int
  end_time : Option Int
  duration_seconds : Option Int
  user : Option String
  is_running : Bool
  deriving Repr, DecidableEq

/-- Row of `tracked_vms` (database.py, class TrackedVM). -/
structure TrackedVM where
  vm_id : String
  node : String
  name : String
  vm_type : String
  current_status : String
  last_seen : Int
  deriving Repr, DecidableEq

/-- Row of `proxmox_nodes` (database.py, class ProxmoxNode); only the columns
touched by the ingest path are kept. -/
structure NodeRow where
  name : String
  hostname : Option String
  is_active : Bool
  last_seen : Int
  total_vms : Nat
  deriving Repr, DecidableEq

/-- The relational store as seen by the ingest service: the three tables plus
the autoincrement counter for session ids. -/
structure Store where
  sessions : List VMSession
  tracked : List TrackedVM
  nodes : List NodeRow
  nextId : Nat
  deriving Repr, DecidableEq

/-- Wire payload of `POST /api/ingest/vm-start` (schemas.py, VMStartEvent). -/
structure VMStartEvent where
  node : String
  vm_id : String
  vm_name : Option String
  vm_type : String
  start_time : Int
  deriving Repr, DecidableEq

/-- Wire payload of `POST /api/ingest/vm-stop` (schemas.py, VMStopEvent). -/
structure VMStopEvent where
  node : String
  vm_id : String
  stop_time : Int
  deriving Repr, DecidableEq

/-- One VM entry of a snapshot (schemas.py, VMStateData); the resource gauges
`cpu`, `memory`, `maxmem` are never read by the ingest path and are omitted. -/
structure VMStateData where
  vm_id : String
  vm_type : String
  name : Option String
  status : String
  uptime : Int
  deriving Repr, DecidableEq

/-- Python truthiness of an optional string: `None` and the empty string are
falsy (`if status:` / `name or default` in `_update_tracked_vm`). -/
def pyOr (o : Option String) (d : String) : String :=
  match o with
  | some s => if s == "" then d else s
  | none => d

/-- Replace the first element satisfying `p` by its `f`-image; models mutating
the single row returned by `scalar_one_or_none`. -/
def updateFirst (p : α → Bool) (f : α → α) : List α → List α
  | [] => []
  | x :: xs => if p x then f x :: xs else x :: updateFirst p f xs

/-- `VMSession.calculate_duration` (database.py lines 82-90): with `end_time`
set the duration is `end_time - start_time`, otherwise `now - start_time`.
`start_time` is a non-nullable column, so the final `return 0` branch is
unreachable and not modelled. -/
def calculate_duration (now : Int) (s : VMSession) : Int :=
  match s.end_time with
  | some e => e - s.start_time
  | none => now - s.start_time

/-- Close a session at time `ts`: set `end_time`, clear `is_running`, then
recompute `duration_seconds` via `calculate_duration` (the pattern used by
`handle_vm_stop` and both close paths of `handle_vm_states`). -/
def closeSession (ts now : Int) (s : VMSession) : VMSession :=
  let s1 : VMSession := { s with end_time := some ts, is_running := false }
  { s1 with duration_seconds := some (calculate_duration now s1) }

/-- Close every session whose id is listed, leave the rest alone.  The ingest
code mutates specific ORM objects; here the object identity is the session id. -/
def closeIf (ids : List Nat) (ts now : Int) (s : VMSession) : VMSession :=
  if ids.contains s.id then closeSession ts now s else s

/-- `IngestService._update_node_seen`: bump `last_seen` on the matching node
row (an UPDATE, creating nothing). -/
def updateNodeSeen (nodes : List NodeRow) (node : String) (now : Int) : List NodeRow :=
  nodes.map (fun nd => if nd.name == node then { nd with last_seen := now } else nd)

/-- Final UPDATE of `handle_vm_states`: store the snapshot's VM count. -/
def setNodeTotalVMs (nodes : List NodeRow) (node : String) (k : Nat) : List NodeRow :=
  nodes.map (fun nd => if nd.name == node then { nd with total_vms := k } else nd)

/-- `IngestService._update_tracked_vm` (ingest_service.py lines 344-377):
update the existing `(node, vm_id)` row (skipping falsy `status` and `name`),
or insert a fresh row with Python-`or` defaults. -/
def updateTrackedVM (tracked : List TrackedVM) (vm_id node : String)
    (status name vm_type : Option String) (now : Int) : List TrackedVM :=
  if tracked.any (fun t => t.vm_id == vm_id && t.node == node) then
    updateFirst (fun t => t.vm_id == vm_id && t.node == node)
      (fun t => { t with
        current_status := pyOr status t.current_status,
        name := pyOr name t.name,
        last_seen := now }) tracked
  else
    tracked ++ [{ vm_id := vm_id, node := node,
                  name := pyOr name ("VM " ++ vm_id),
                  vm_type := pyOr vm_type "qemu",
                  current_status := pyOr status "unknown",
                  last_seen := now }]

/-- `IngestService.register_node`: update the node row by name or create it. -/
def register_node (st : Store) (name : String) (hostname : Option String)
    (now : Int) : Store :=
  let upd : NodeRow → NodeRow := fun nd =>
    { nd with
      hostname := (match hostname with
        | some h => if h == "" then nd.hostname else some h
        | none => nd.hostname),
      is_active := true,
      last_seen := now }
  if st.nodes.any (fun nd => nd.name == name) then
    { st with nodes := updateFirst (fun nd => nd.name == name) upd st.nodes }
  else
    let fresh : NodeRow :=
      { name := name, hostname := hostname, is_active := true,
        last_seen := now, total_vms := 0 }
    { st with nodes := st.nodes ++ [fresh] }

/-- The open-session lookup used by `handle_vm_start` and `handle_vm_stop`:
`vm_id == e.vm_id AND node == e.node AND is_running == True`. -/
def openPred (vm_id node : String) (s : VMSession) : Bool :=
  s.vm_id == vm_id && s.node == node && s.is_running

/-- `IngestService.handle_vm_start` (ingest_service.py lines 73-133).  Returns
the updated store and the session id reported in the response. -/
def handle_vm_start (st : Store) (e : VMStartEvent) (now : Int) : Store × Nat :=
  let st0 : Store := { st with nodes := updateNodeSeen st.nodes e.node now }
  let tr := updateTrackedVM st0.tracked e.vm_id e.node (some "running") e.vm_name
      (some e.vm_type) now
  let st1 : Store := { st0 with tracked := tr }
  match st1.sessions.find? (openPred e.vm_id e.node) with
  | some existing =>
    if e.start_time < existing.start_time then
      let widened := st1.sessions.map (fun s =>
        if s.id == existing.id then { s with start_time := e.start_time } else s)
      ({ st1 with sessions := widened }, existing.id)
    else (st1, existing.id)
  | none =>
    let fresh : VMSession :=
      { id := st1.nextId, vm_id := e.vm_id, node := e.node,
        vm_type := e.vm_type, start_time := e.start_time,
        end_time := none, duration_seconds := none, user := none,
        is_running := true }
    ({ st1 with sessions := st1.sessions ++ [fresh], nextId := st1.nextId + 1 },
     st1.nextId)

/-- Pick the row of `ORDER BY start_time DESC LIMIT 1`: a maximal-`start_time`
element of the filtered list. -/
def latestOf : List VMSession → Option VMSession
  | [] => none
  | s :: rest =>
    match latestOf rest with
    | none => some s
    | some b => if b.start_time > s.start_time then some b else some s

/-- `IngestService.handle_vm_stop` (ingest_service.py lines 135-183).  Returns
the updated store and, when a session was closed, its id and duration. -/
def handle_vm_stop (st : Store) (e : VMStopEvent) (now : Int) :
    Store × Option (Nat × Int) :=
  let st0 : Store := { st with nodes := updateNodeSeen st.nodes e.node now }
  let tr := updateTrackedVM st0.tracked e.vm_id e.node (some "stopped") none none now
  let st1 : Store := { st0 with tracked := tr }
  match latestOf (st1.sessions.filter (openPred e.vm_id e.node)) with
  | none => (st1, none)
  | some sess =>
    let closed := st1.sessions.map (fun s =>
      if s.id == sess.id then closeSession e.stop_time now s else s)
    ({ st1 with sessions := closed }, some (sess.id, e.stop_time - sess.start_time))

/-- Lookup in the Python dict `{s.vm_id: s for s in running_sessions}`: with
duplicate keys the later list entry wins, hence the reversed search. -/
def dictGet (l : List VMSession) (v : String) : Option VMSession :=
  l.reverse.find? (fun s => s.vm_id == v)

/-- Key list of that dict.  A Python dict iterates each key exactly once; here
duplicate keys may be listed several times, which leaves the sweep's result
unchanged because closing the same dict entry twice at the same timestamp is
idempotent. -/
def dictKeys (l : List VMSession) : List String :=
  l.map (fun s => s.vm_id)

/-- The session opened by the snapshot path for a running VM without one
(ingest_service.py lines 231-248): note the source backdates with
`datetime.utcnow() - timedelta(seconds=vm.uptime)`, i.e. with `now`, not with
the snapshot timestamp, when `uptime > 0`. -/
def mkSnapSession (nid : Nat) (node : String) (snapshot_ts now : Int)
    (vm : VMStateData) : VMSession :=
  { id := nid, vm_id := vm.vm_id, node := node, vm_type := vm.vm_type,
    start_time := if vm.uptime > 0 then now - vm.uptime else snapshot_ts,
    end_time := none, duration_seconds := none, user := none,
    is_running := true }

/-- Main loop of `handle_vm_states` over `snapshot.vms`: upsert the tracked
row, open a session for a running VM absent from `running_sessions`, close the
dict entry for a non-running VM present in it. -/
def statesLoop (open0 : List VMSession) (node : String) (snapshot_ts now : Int) :
    Store → List VMStateData → Store
  | st, [] => st
  | st, vm :: rest =>
    let tr := updateTrackedVM st.tracked vm.vm_id node (some vm.status) vm.name
        (some vm.vm_type) now
    let st1 : Store := { st with tracked := tr }
    let st2 : Store :=
      match dictGet open0 vm.vm_id with
      | none =>
        if vm.status == "running" then
          let added := st1.sessions ++ [mkSnapSession st1.nextId node snapshot_ts now vm]
          { st1 with sessions := added, nextId := st1.nextId + 1 }
        else st1
      | some o =>
        if vm.status == "running" then st1
        else { st1 with sessions := st1.sessions.map (closeIf [o.id] snapshot_ts now) }
    statesLoop open0 node snapshot_ts now st2 rest

/-- The `running_sessions` query of `handle_vm_states`: all open sessions of
the node. -/
def openFor (sessions : List VMSession) (node : String) : List VMSession :=
  sessions.filter (fun s => s.node == node && s.is_running)

/-- Ids closed by the removed-VM sweep of `handle_vm_states`: one per dict
entry whose vm_id does not occur in the snapshot. -/
def finalCloseIds (open0 : List VMSession) (vms : List VMStateData) : List Nat :=
  (dictKeys open0).filterMap (fun k =>
    if (vms.map (fun vm => vm.vm_id)).contains k then none
    else (dictGet open0 k).map (fun o => o.id))

/-- `IngestService.handle_vm_states` (ingest_service.py lines 185-284):
reconcile a full snapshot.  `open0` is the pre-fetched set of open sessions
for the node; after the main loop, every dict entry whose vm_id is absent from
the snapshot is closed at the snapshot timestamp. -/
def handle_vm_states (st : Store) (node : String) (snapshot_ts now : Int)
    (vms : List VMStateData) : Store :=
  let st0 : Store := { st with nodes := updateNodeSeen st.nodes node now }
  let open0 := openFor st0.sessions node
  let st1 := statesLoop open0 node snapshot_ts now st0 vms
  let st2 : Store :=
    { st1 with sessions :=
        st1.sessions.map (closeIf (finalCloseIds open0 vms) snapshot_ts now) }
  { st2 with nodes := setNodeTotalVMs st2.nodes node vms.length }

/-- Normal form of the main loop's session side effects: ids of the dict
entries closed because their VM appears in the snapshot as non-running. -/
def mainCloseIds (open0 : List VMSession) (vms : List VMStateData) : List Nat :=
  vms.filterMap (fun vm =>
    if vm.status == "running" then none
    else (dictGet open0 vm.vm_id).map (fun o => o.id))

/-- Normal form of the main loop's session creations: the sessions opened for
running snapshot VMs without a dict entry, with consecutive ids from `nid`. -/
def newSessionsAux (open0 : List VMSession) (node : String)
    (snapshot_ts now : Int) : Nat → List VMStateData → List VMSession × Nat
  | nid, [] => ([], nid)
  | nid, vm :: rest =>
    if vm.status == "running" && (dictGet open0 vm.vm_id).isNone then
      let res := newSessionsAux open0 node snapshot_ts now (nid + 1) rest
      (mkSnapSession nid node snapshot_ts now vm :: res.1, res.2)
    else newSessionsAux open0 node snapshot_ts now nid rest

/-- vm_ids reported running by a snapshot. -/
def runningIds (vms : List VMStateData) : List String :=
  (vms.filter (fun vm => vm.status == "running")).map (fun vm => vm.vm_id)

/-- One serially-executed ingest call, with the wall-clock instant at which
the manager handles it. -/
inductive IngestOp where
  | register (name : String) (hostname : Option String) (now : Int)
  | start (e : VMStartEvent) (now : Int)
  | stop (e : VMStopEvent) (now : Int)
  | states (node : String) (snapshot_ts now : Int) (vms : List VMStateData)
  deriving Repr, DecidableEq

/-- Apply one ingest call to the store. -/
def applyOp (st : Store) : IngestOp → Store
  | .register name hostname now => register_node st name hostname now
  | .start e now => (handle_vm_start st e now).1
  | .stop e now => (handle_vm_stop st e now).1
  | .states node ts now vms => handle_vm_states st node ts now vms

/-- Apply a serial sequence of ingest calls. -/
def applySeq (st : Store) (ops : List IngestOp) : Store :=
  ops.foldl applyOp st

/-- The store before any ingest call (MySQL autoincrement starts at 1). -/
def emptyStore : Store :=
  { sessions := [], tracked := [], nodes := [], nextId := 1 }

/-- Number of open sessions for a `(node, vm_id)` pair. -/
def openCount (st : Store) (node vm_id : String) : Nat :=
  st.sessions.countP (fun s => s.is_running && s.node == node && s.vm_id == vm_id)

/-- The single-open-session invariant P1. -/
def SingleOpen (st : Store) : Prop :=
  ∀ node vm_id, openCount st node vm_id ≤ 1

/-- Store well-formedness: session ids are pairwise distinct and below the
autoincrement counter. -/
def StoreWF (st : Store) : Prop :=
  (st.sessions.map (fun s => s.id)).Nodup ∧ ∀ s ∈ st.sessions, s.id < st.nextId

/-- Every closed session carries `duration_seconds = end_time - start_time`
(the exact value `calculate_duration` writes, with no clamping at zero). -/
def ClosedDurOK (st : Store) : Prop :=
  ∀ s ∈ st.sessions, s.is_running = false →
    ∃ e, s.end_time = some e ∧ s.duration_seconds = some (e - s.start_time)

/-- An op is a single start or stop event (no snapshot, no registration). -/
def IngestOp.isEvent : IngestOp → Prop
  | .start _ _ => True
  | .stop _ _ => True
  | _ => False

/-- Snapshot payloads of every `states` op in the list have pairwise distinct
vm_ids, as a snapshot (a map keyed by vm_id in the spec) does. -/
def StatesNodup (ops : List IngestOp) : Prop :=
  ∀ op ∈ ops, ∀ node ts now vms, op = IngestOp.states node ts now vms →
    (vms.map (fun vm => vm.vm_id)).Nodup

/-- The SQL row filter of `TimeTracker.get_vm_usage` (time_tracker.py lines
49-63): note it requires `start_time >= start_date` and
`end_time <= end_date OR end_time IS NULL`, not interval overlap. -/
def usageQueryFilter (vm_id : String) (node : Option String)
    (start_date end_date : Option Int) (s : VMSession) : Bool :=
  (s.vm_id == vm_id)
  && (match node with | some n => s.node == n | none => true)
  && (match start_date with | some t0 => decide (t0 ≤ s.start_time) | none => true)
  && (match end_date with
      | some t1 => (match s.end_time with | some e => decide (e ≤ t1) | none => true)
      | none => true)

/-- Per-session contribution of `get_vm_usage` (time_tracker.py lines 73-91):
start from `duration_seconds` when truthy (Python: `if sess.duration_seconds:`
is false for `None` and for `0`), else `(end_date or now) - start_time`; then
subtract the pre-window and post-window overhangs, clamping at zero. -/
def usageContribution (start_date end_date : Option Int) (now : Int)
    (s : VMSession) : Int :=
  let dur0 : Int :=
    match s.duration_seconds with
    | some d => if d == 0 then (end_date.getD now) - s.start_time else d
    | none => (end_date.getD now) - s.start_time
  let dur1 : Int :=
    match start_date with
    | some t0 => if s.start_time < t0 then max 0 (dur0 - (t0 - s.start_time)) else dur0
    | none => dur0
  match end_date, s.end_time with
  | some t1, some e => if t1 < e then max 0 (dur1 - (e - t1)) else dur1
  | _, _ => dur1

/-- `TimeTracker.get_vm_usage` (time_tracker.py lines 27-112), reduced to the
fields the claims are about: `(total_seconds, session_count)`. -/
def get_vm_usage (sessions : List VMSession) (vm_id : String)
    (start_date end_date : Option Int) (node : Option String) (now : Int) :
    Int × Nat :=
  let filtered := sessions.filter (usageQueryFilter vm_id node start_date end_date)
  (filtered.foldl (fun acc s => acc + usageContribution start_date end_date now s) 0,
   filtered.length)

/-- Agent-side VM status enum (client/proxmox_api.py, class VMStatus). -/
inductive VMStatus where
  | running
  | stopped
  | paused
  | unknown
  deriving Repr, DecidableEq

/-- Event emitted by the agent diff loop.  The HTTP payloads also carry the VM
name and type, which do not influence which events are emitted. -/
inductive AgentEvent where
  | start (vm_id : String)
  | stop (vm_id : String)
  deriving Repr, DecidableEq

/-- Lookup in the agent's `previous_states` dict, reduced to the status. -/
def stLookup (m : List (String × VMStatus)) (k : String) : Option VMStatus :=
  (m.find? (fun p => p.1 == k)).map (fun p => p.2)

/-- Dict assignment `previous_states[vm_id] = vm`: replace in place when the
key exists (every occurrence carries the same key), else append. -/
def stSet (m : List (String × VMStatus)) (k : String) (v : VMStatus) :
    List (String × VMStatus) :=
  if m.any (fun p => p.1 == k) then
    m.map (fun p => if p.1 == k then (k, v) else p)
  else m ++ [(k, v)]

/-- Main loop of `ProxmoxClient.poll_vm_states` (client/main.py lines 147-195):
per current VM, emit a start for a newly seen running VM, a start on a
transition into running, a stop on a running-to-stopped transition, and update
`previous_states` in place.  Returns emitted events and the updated dict. -/
def pollLoop (m : List (String × VMStatus)) :
    List (String × VMStatus) → List AgentEvent × List (String × VMStatus)
  | [] => ([], m)
  | vm :: rest =>
    let ev : List AgentEvent :=
      match stLookup m vm.1 with
      | none => if vm.2 == VMStatus.running then [AgentEvent.start vm.1] else []
      | some p =>
        if p != vm.2 then
          if vm.2 == VMStatus.running && p != VMStatus.running then
            [AgentEvent.start vm.1]
          else if vm.2 == VMStatus.stopped && p == VMStatus.running then
            [AgentEvent.stop vm.1]
          else []
        else []
    let res := pollLoop (stSet m vm.1 vm.2) rest
    (ev ++ res.1, res.2)

/-- `ProxmoxClient.poll_vm_states` (client/main.py lines 127-218): the main
diff loop followed by the removed-VM sweep, which emits a stop for every VM of
`previous_states` that vanished from the probe while last known running. -/
def poll_vm_states (prev current : List (String × VMStatus)) : List AgentEvent :=
  let res := pollLoop prev current
  let currentIds := current.map (fun vm => vm.1)
  let removedStops :=
    (res.2.filter (fun p => !(currentIds.contains p.1) && p.2 == VMStatus.running)).map
      (fun p => AgentEvent.stop p.1)
  res.1 ++ removedStops

/-- The module-level `_force_sync_pending` dict of ingest_service.py:
node name to pending flag; a missing key reads as `False`. -/
def fsGet (m : List (String × Bool)) (k : String) : Bool :=
  match m.find? (fun p => p.1 == k) with
  | some p => p.2
  | none => false

/-- Dict assignment on the force-sync map. -/
def fsSet (m : List (String × Bool)) (k : String) (b : Bool) :
    List (String × Bool) :=
  if m.any (fun p => p.1 == k) then
    m.map (fun p => if p.1 == k then (k, b) else p)
  else m ++ [(k, b)]

/-- `IngestService.heartbeat` (ingest_service.py lines 286-297): read the
node's own flag and clear it when set.  The wildcard entry is not consulted
and not cleared here.  Returns the new map and the value read. -/
def ingest_heartbeat (m : List (String × Bool)) (node : String) :
    List (String × Bool) × Bool :=
  let fs := fsGet m node
  (if fs then fsSet m node false else m, fs)

/-- `IngestService.request_force_sync` (ingest_service.py lines 299-312): set
the node's flag, or the `*` wildcard entry when no target is given. -/
def request_force_sync (m : List (String × Bool)) (node : Option String) :
    List (String × Bool) × Int :=
  match node with
  | some n => (fsSet m n true, 1)
  | none => (fsSet m "*" true, -1)

/-- `IngestService.check_force_sync` (ingest_service.py lines 314-317): the
node's flag OR the wildcard flag. -/
def check_force_sync (m : List (String × Bool)) (node : String) : Bool :=
  fsGet m node || fsGet m "*"

/-- The `/api/ingest/heartbeat` route (routes/ingest.py lines 95-118): the
reply's `force_sync` comes from `check_force_sync`, after which
`IngestService.heartbeat` drains the node's own flag. -/
def heartbeat_route (m : List (String × Bool)) (node : String) :
    List (String × Bool) × Bool :=
  let fs := check_force_sync m node
  ((ingest_heartbeat m node).1, fs)

/-- A sequence of heartbeats from arbitrary nodes, with no intervening
force-sync request. -/
def hbDrain (m : List (String × Bool)) (ns : List String) :
    List (String × Bool) :=
  ns.foldl (fun acc k => (heartbeat_route acc k).1) m

/-- Lookup of the `tracked_vms` row for a `(node, vm_id)` key. -/
def findTracked (l : List TrackedVM) (node vm_id : String) : Option TrackedVM :=
  l.find? (fun t => t.vm_id == vm_id && t.node == node)

/-- Frame relation between an existing tracked row and its post-ingest state:
the identity fields `vm_id`, `node`, `vm_type` are unchanged and neither
`current_status` nor `name` is ever overwritten with an empty value (each is
either kept or replaced by a non-empty string). -/
def TrackedFramed (r r' : TrackedVM) : Prop :=
  r'.vm_id = r.vm_id ∧ r'.node = r.node ∧ r'.vm_type = r.vm_type ∧
  (r'.current_status = r.current_status ∨ r'.current_status ≠ "") ∧
  (r'.name = r.name ∨ r'.name ≠ "")

/-- A concrete event history: one vm_start for VM "1" on node "A" at t=10. -/
def c2Evs : List IngestOp := [IngestOp.start ⟨"A", "1", none, "qemu", 10⟩ 10]

/-- A concrete snapshot payload: VM "1" stopped, VM "2" running (uptime 5). -/
def c2Vms : List VMStateData :=
  [⟨"1", "qemu", none, "stopped", 0⟩, ⟨"2", "qemu", none, "running", 5⟩]

/-!  Generic list lemmas used throughout the development. -/

theorem countP_mono_pointwise {p q : α → Bool} (l : List α)
    (h : ∀ x ∈ l, p x = true → q x = true) : l.countP p ≤ l.countP q := by
  induction l with
  | nil => simp
  | cons a t ih =>
    have iht := ih (fun x hx => h x (List.mem_cons_of_mem a hx))
    rw [List.countP_cons, List.countP_cons]
    by_cases hpa : p a
    · rw [if_pos hpa, if_pos (h a (List.mem_cons_self a t) hpa)]
      omega
    · rw [if_neg hpa]
      by_cases hqa : q a
      · rw [if_pos hqa]; omega
      · rw [if_neg hqa]; omega

/-!  Force-sync map lemmas (claim C9). -/

theorem fsGet_fsSet (m : List (String × Bool)) (k : String) (b : Bool)
    (x : String) :
    fsGet (fsSet m k b) x = if x = k then b else fsGet m x := by
  unfold fsGet fsSet
  by_cases hany : (m.any (fun p => p.1 == k)) = true
  · rw [if_pos hany, List.find?_map]
    by_cases hxk : x = k
    · subst hxk
      have hqf : ((fun p : String × Bool => p.1 == x) ∘
          (fun p => if p.1 == x then (x, b) else p))
          = (fun p : String × Bool => p.1 == x) := by
        funext p
        by_cases hp : p.1 = x
        · simp [hp]
        · simp [hp]
      rw [hqf]
      obtain ⟨y, hy, hyx⟩ := List.any_eq_true.mp hany
      cases hfind : m.find? (fun p => p.1 == x) with
      | none =>
        rw [List.find?_eq_none] at hfind
        exact absurd hyx (hfind y hy)
      | some z =>
        have hz := List.find?_some hfind
        have hzx : z.1 = x := by simpa using hz
        simp [hzx]
    · have hqf : ((fun p : String × Bool => p.1 == x) ∘
          (fun p => if p.1 == k then (k, b) else p))
          = (fun p : String × Bool => p.1 == x) := by
        funext p
        by_cases hp : p.1 = k
        · simp [hp, show ¬ (k = x) from fun h => hxk h.symm, hxk]
        · simp [hp]
      rw [hqf, if_neg hxk]
      cases hfind : m.find? (fun p => p.1 == x) with
      | none => simp
      | some z =>
        have hz := List.find?_some hfind
        have hzx : z.1 = x := by simpa using hz
        have hzk : ¬ (z.1 = k) := by rw [hzx]; exact hxk
        simp [hzk]
  · rw [if_neg hany, List.find?_append]
    have hALL : ∀ y ∈ m, ¬ ((y.1 == k) = true) := by
      intro y hy hc
      exact hany (List.any_eq_true.mpr ⟨y, hy, hc⟩)
    by_cases hxk : x = k
    · subst hxk
      have hm : m.find? (fun p => p.1 == x) = none := List.find?_eq_none.mpr hALL
      rw [hm]
      simp [List.find?]
    · cases hfind : m.find? (fun p => p.1 == x) with
      | some z => simp [hfind, hxk]
      | none =>
        have hone : (([(k, b)] : List (String × Bool)).find?
            (fun p => p.1 == x)) = none := by
          have hkx : (k == x) = false := by
            simp [show ¬ (k = x) from fun h => hxk h.symm]
          simp only [List.find?, hkx]
        simp [hfind, hone, hxk]

theorem heartbeat_keeps_false (m : List (String × Bool)) (k x : String)
    (hx : fsGet m x = false) : fsGet ((heartbeat_route m k).1) x = false := by
  unfold heartbeat_route ingest_heartbeat
  by_cases h : fsGet m k = true
  · simp only [h, if_true]
    rw [fsGet_fsSet]
    by_cases hxk : x = k
    · simp [hxk]
    · simp [hxk, hx]
  · have h' : fsGet m k = false := Bool.of_not_eq_true h
    simp [h', hx]

theorem hbDrain_keeps_false (ns : List String) (m : List (String × Bool))
    (x : String) (hx : fsGet m x = false) : fsGet (hbDrain m ns) x = false := by
  induction ns generalizing m with
  | nil => exact hx
  | cons a t ih =>
    show fsGet (hbDrain ((heartbeat_route m a).1) t) x = false
    exact ih _ (heartbeat_keeps_false m a x hx)

/-- C9, counterexample: after a wildcard force-sync request, a heartbeat for
`node1` replies `force_sync = true` but never drains the wildcard entry, so
the next heartbeat (with no intervening request) still replies `true`. -/
theorem claim9_counterexample :
    (heartbeat_route ((request_force_sync [] none).1) "node1").2 = true ∧
    (heartbeat_route
      ((heartbeat_route ((request_force_sync [] none).1) "node1").1)
      "node1").2 = true := by
  exact ⟨rfl, rfl⟩

/-- C9 (amended): when no wildcard request is pending, a force-sync request
targeted at node `n` followed by one heartbeat for `n` (whose reply carries
`force_sync = true`) is fully drained: every later heartbeat for `n`, after
any interleaving of heartbeats from arbitrary nodes and with no intervening
force-sync request, replies `force_sync = false`.  A wildcard request, by
contrast, is never drained (see the counterexample). -/
theorem claim9_force_sync_drain (m : List (String × Bool)) (n : String)
    (hw : fsGet m "*" = false) :
    (heartbeat_route (request_force_sync m (some n)).1 n).2 = true ∧
    ∀ ns : List String,
      (heartbeat_route
        (hbDrain (heartbeat_route (request_force_sync m (some n)).1 n).1 ns)
        n).2 = false := by
  have hm1n : fsGet (fsSet m n true) n = true := by
    rw [fsGet_fsSet]; simp
  have hroute1 : (heartbeat_route (fsSet m n true) n).1
      = fsSet (fsSet m n true) n false := by
    unfold heartbeat_route ingest_heartbeat
    simp [hm1n]
  constructor
  · show check_force_sync (fsSet m n true) n = true
    unfold check_force_sync
    rw [hm1n]
    rfl
  · intro ns
    have h2n : fsGet (fsSet (fsSet m n true) n false) n = false := by
      rw [fsGet_fsSet]; simp
    have h2w : fsGet (fsSet (fsSet m n true) n false) "*" = false := by
      rw [fsGet_fsSet, fsGet_fsSet]
      by_cases hws : ("*" : String) = n
      · simp [hws]
      · simp [hws, hw]
    show check_force_sync
      (hbDrain ((heartbeat_route (fsSet m n true) n).1) ns) n = false
    rw [hroute1]
    unfold check_force_sync
    rw [hbDrain_keeps_false ns _ n h2n, hbDrain_keeps_false ns _ "*" h2w]
    rfl

/-- C9 witness: the amended drain theorem applied at a concrete map, node and
heartbeat interleaving. -/
theorem claim9_force_sync_drain_witness :
    fsGet [] "*" = false ∧
    ((heartbeat_route (request_force_sync [] (some "n1")).1 "n1").2 = true ∧
     (heartbeat_route
       (hbDrain (heartbeat_route (request_force_sync [] (some "n1")).1 "n1").1
         ["n2", "n1"])
       "n1").2 = false) := by
  refine ⟨rfl, ?_, ?_⟩
  · exact (claim9_force_sync_drain [] "n1" rfl).1
  · exact (claim9_force_sync_drain [] "n1" rfl).2 ["n2", "n1"]

/-- C3: at the spec's own usage-clipping scenario (session 10:00-14:00, query
window 12:00-13:30, seconds from midnight) the code returns `total_seconds = 0`
instead of the specified 5400: `get_vm_usage` filters with
`start_time >= t0 AND (end_time <= t1 OR end_time IS NULL)`, which excludes
every session overhanging the window, while its own clipping code below the
filter expects such sessions to be present. -/
theorem claim3_usage_clipping_eval :
    (get_vm_usage
      [{ id := 1, vm_id := "42", node := "A", vm_type := "qemu",
         start_time := 36000, end_time := some 50400,
         duration_seconds := some 14400, user := none, is_running := false }]
      "42" (some 43200) (some 48600) none 100000).1 = 0 ∧ (0 : Int) ≠ 5400 := by
  exact ⟨rfl, by decide⟩

/-- C7: window additivity fails on the code because of the same query filter:
for the closed session [0, 100], the usage over [0,100] is 100 but the usages
over [0,50] and [50,100] are both 0 (the session is excluded from both
sub-window queries). -/
theorem claim7_additivity_eval :
    (get_vm_usage
      [{ id := 1, vm_id := "v", node := "A", vm_type := "qemu",
         start_time := 0, end_time := some 100, duration_seconds := some 100,
         user := none, is_running := false }]
      "v" (some 0) (some 100) none 1000).1 = 100 ∧
    (get_vm_usage
      [{ id := 1, vm_id := "v", node := "A", vm_type := "qemu",
         start_time := 0, end_time := some 100, duration_seconds := some 100,
         user := none, is_running := false }]
      "v" (some 0) (some 50) none 1000).1 = 0 ∧
    (get_vm_usage
      [{ id := 1, vm_id := "v", node := "A", vm_type := "qemu",
         start_time := 0, end_time := some 100, duration_seconds := some 100,
         user := none, is_running := false }]
      "v" (some 50) (some 100) none 1000).1 = 0 ∧
    (100 : Int) ≠ 0 + 0 := by
  exact ⟨rfl, rfl, rfl, by decide⟩

/-- C4, counterexample: an empty store, a snapshot at `snapshot_ts = 0`
handled at wall-clock `now = 1000`, one running VM with `uptime = 100`.  The
opened session's `start_time` is `now - uptime = 900`, not
`snapshot_ts - uptime = -100` as the claim states. -/
theorem claim4_counterexample :
    ((handle_vm_states emptyStore "A" 0 1000
        [{ vm_id := "7", vm_type := "qemu", name := none,
           status := "running", uptime := 100 }]).sessions.map
      (fun s => s.start_time)) = [900] ∧ ((900 : Int) ≠ 0 - 100) := by
  exact ⟨rfl, by decide⟩

/-- C5, counterexample: `vm_start` at t=100 followed by `vm_stop` at t=40
leaves a closed session with `duration_seconds = -60`: `calculate_duration`
applies no `max(0, ...)` clamp, refuting non-negativity. -/
theorem claim5_counterexample :
    ((applySeq emptyStore
        [IngestOp.start
          { node := "A", vm_id := "42", vm_name := none, vm_type := "qemu",
            start_time := 100 } 100,
         IngestOp.stop { node := "A", vm_id := "42", stop_time := 40 } 140]).sessions.map
      (fun s => (s.is_running, s.duration_seconds)))
      = [(false, some (-60))] ∧ ¬ ((0 : Int) ≤ -60) := by
  exact ⟨rfl, by decide⟩

/-- C8, counterexample: a VM known running whose probe status becomes
`paused` emits no stop event at all — the agent's stop branch fires only on
`stopped`, not on every non-running status as the claim states. -/
theorem claim8_counterexample :
    (poll_vm_states [("7", VMStatus.running)]
      [("7", VMStatus.paused)]).count (AgentEvent.stop "7") = 0 ∧
    (0 : Nat) ≠ 1 := by
  exact ⟨rfl, by decide⟩

/-!  Agent diff-loop lemmas (claim C8). -/

theorem stLookup_stSet (m : List (String × VMStatus)) (k : String)
    (v : VMStatus) (x : String) :
    stLookup (stSet m k v) x = if x = k then some v else stLookup m x := by
  unfold stLookup stSet
  by_cases hany : (m.any (fun p => p.1 == k)) = true
  · rw [if_pos hany, List.find?_map]
    by_cases hxk : x = k
    · subst hxk
      have hqf : ((fun p : String × VMStatus => p.1 == x) ∘
          (fun p => if p.1 == x then (x, v) else p))
          = (fun p : String × VMStatus => p.1 == x) := by
        funext p
        by_cases hp : p.1 = x
        · simp [hp]
        · simp [hp]
      rw [hqf]
      obtain ⟨y, hy, hyx⟩ := List.any_eq_true.mp hany
      cases hfind : m.find? (fun p => p.1 == x) with
      | none =>
        rw [List.find?_eq_none] at hfind
        exact absurd hyx (hfind y hy)
      | some z =>
        have hz := List.find?_some hfind
        have hzx : z.1 = x := by simpa using hz
        simp [hzx]
    · have hqf : ((fun p : String × VMStatus => p.1 == x) ∘
          (fun p => if p.1 == k then (k, v) else p))
          = (fun p : String × VMStatus => p.1 == x) := by
        funext p
        by_cases hp : p.1 = k
        · simp [hp, show ¬ (k = x) from fun h => hxk h.symm, hxk]
        · simp [hp]
      rw [hqf, if_neg hxk]
      cases hfind : m.find? (fun p => p.1 == x) with
      | none => simp
      | some z =>
        have hz := List.find?_some hfind
        have hzx : z.1 = x := by simpa using hz
        have hzk : ¬ (z.1 = k) := by rw [hzx]; exact hxk
        simp [hzk]
  · rw [if_neg hany, List.find?_append]
    have hALL : ∀ y ∈ m, ¬ ((y.1 == k) = true) := by
      intro y hy hc
      exact hany (List.any_eq_true.mpr ⟨y, hy, hc⟩)
    by_cases hxk : x = k
    · subst hxk
      have hm : m.find? (fun p => p.1 == x) = none := List.find?_eq_none.mpr hALL
      rw [hm]
      simp [List.find?]
    · cases hfind : m.find? (fun p => p.1 == x) with
      | some z => simp [hfind, hxk]
      | none =>
        have hone : (([(k, v)] : List (String × VMStatus)).find?
            (fun p => p.1 == x)) = none := by
          have hkx : (k == x) = false := by
            simp [show ¬ (k = x) from fun h => hxk h.symm]
          simp only [List.find?, hkx]
        simp [hfind, hone, hxk]

theorem pollLoop_count_notmem (N : List (String × VMStatus))
    (m : List (String × VMStatus)) (v : String)
    (hv : ∀ p ∈ N, p.1 ≠ v) :
    ((pollLoop m N).1.count (AgentEvent.stop v)) = 0 := by
  induction N generalizing m with
  | nil => rfl
  | cons vm rest ih =>
    have hvm : vm.1 ≠ v := hv vm (List.mem_cons_self vm rest)
    show ((pollLoop m (vm :: rest)).1.count (AgentEvent.stop v)) = 0
    unfold pollLoop
    rw [List.count_append]
    have hrest := ih (stSet m vm.1 vm.2) (fun p hp => hv p (List.mem_cons_of_mem vm hp))
    rw [hrest]
    have hstop : (AgentEvent.stop v) ∉
        ([AgentEvent.start vm.1] : List AgentEvent) := by simp
    have hstop2 : (AgentEvent.stop v) ∉
        ([AgentEvent.stop vm.1] : List AgentEvent) := by simp [Ne.symm hvm]
    cases hlk : stLookup m vm.1 with
    | none =>
      by_cases hr : vm.2 = VMStatus.running
      · simp [hr, List.count_eq_zero.mpr hstop]
      · have : (vm.2 == VMStatus.running) = false := by simp [hr]
        simp [this]
    | some p =>
      by_cases hne : p = vm.2
      · have : (p != vm.2) = false := by simp [hne]
        simp [this]
      · have hne' : (p != vm.2) = true := by simp [hne]
        simp only [hne', if_true]
        by_cases h1 : vm.2 = VMStatus.running
        · by_cases h2 : p = VMStatus.running
          · exact absurd (h2.trans h1.symm) hne
          · have : (vm.2 == VMStatus.running && p != VMStatus.running) = true := by
              simp [h1, h2]
            simp [this, List.count_eq_zero.mpr hstop]
        · have hb1 : (vm.2 == VMStatus.running && p != VMStatus.running) = false := by
            simp [h1]
          by_cases h3 : vm.2 = VMStatus.stopped ∧ p = VMStatus.running
          · have : (vm.2 == VMStatus.stopped && p == VMStatus.running) = true := by
              simp [h3.1, h3.2]
            simp [hb1, this, List.count_eq_zero.mpr hstop2]
          · have : (vm.2 == VMStatus.stopped && p == VMStatus.running) = false := by
              rcases not_and_or.mp h3 with h | h <;> simp [h]
            simp [hb1, this]

theorem pollLoop_count_stop (N : List (String × VMStatus))
    (m : List (String × VMStatus)) (v : String) (nst : VMStatus)
    (hN : (N.map (fun p => p.1)).Nodup)
    (hm : stLookup m v = some VMStatus.running)
    (hNv : stLookup N v = some nst) :
    ((pollLoop m N).1.count (AgentEvent.stop v))
      = if nst = VMStatus.stopped then 1 else 0 := by
  induction N generalizing m with
  | nil => simp [stLookup] at hNv
  | cons vm rest ih =>
    show ((pollLoop m (vm :: rest)).1.count (AgentEvent.stop v)) = _
    unfold pollLoop
    rw [List.count_append]
    by_cases hk : vm.1 = v
    · have hs : vm.2 = nst := by
        unfold stLookup at hNv
        rw [List.find?_cons_of_pos _ (by simp [hk])] at hNv
        simpa using hNv
      have hrestv : ∀ p ∈ rest, p.1 ≠ v := by
        intro p hp hc
        rw [List.map_cons, List.nodup_cons] at hN
        exact hN.1 (hk ▸ hc ▸ List.mem_map_of_mem (fun q => q.1) hp)
      have hrest := pollLoop_count_notmem rest (stSet m vm.1 vm.2) v hrestv
      rw [hrest, hk, hm]
      simp only [Option.some.injEq]
      by_cases hns : nst = VMStatus.stopped
      · have hp1 : ((VMStatus.running != vm.2)) = true := by
          simp [hs, hns]
        have hb1 : (vm.2 == VMStatus.running && VMStatus.running != VMStatus.running) = false := by
          simp
        have hb2 : (vm.2 == VMStatus.stopped && VMStatus.running == VMStatus.running) = true := by
          simp [hs, hns]
        simp [hp1, hs, hns]
      · by_cases hnr : nst = VMStatus.running
        · have : (VMStatus.running != vm.2) = false := by simp [hs, hnr]
          simp [this, hns]
        · have hrn : ¬ (VMStatus.running = nst) := fun h => hnr h.symm
          have hp1 : (VMStatus.running != vm.2) = true := by
            simp [hs, hrn]
          have hb1 : (vm.2 == VMStatus.running) = false := by
            simp [hs, hnr]
          have hb2 : (vm.2 == VMStatus.stopped) = false := by
            simp [hs, hns]
          simp [hp1, hb1, hb2, hns]
    · have hNv' : stLookup rest v = some nst := by
        unfold stLookup at hNv ⊢
        rw [List.find?_cons_of_neg _ (by simp only [beq_iff_eq]; exact hk)] at hNv
        exact hNv
      have hN' : (rest.map (fun p => p.1)).Nodup := by
        rw [List.map_cons, List.nodup_cons] at hN
        exact hN.2
      have hm' : stLookup (stSet m vm.1 vm.2) v = some VMStatus.running := by
        rw [stLookup_stSet, if_neg (fun h => hk h.symm)]
        exact hm
      have hrest := ih (stSet m vm.1 vm.2) hN' hm' hNv'
      rw [hrest]
      have hstop : (AgentEvent.stop v) ∉
          ([AgentEvent.start vm.1] : List AgentEvent) := by simp
      have hstop2 : (AgentEvent.stop v) ∉
          ([AgentEvent.stop vm.1] : List AgentEvent) := by
        simp only [List.mem_singleton, AgentEvent.stop.injEq]
        exact fun h => hk h.symm
      cases hlk : stLookup m vm.1 with
      | none =>
        by_cases hr : vm.2 = VMStatus.running
        · simp [hr, List.count_eq_zero.mpr hstop]
        · have : (vm.2 == VMStatus.running) = false := by simp [hr]
          simp [this]
      | some p =>
        by_cases hne : p = vm.2
        · have : (p != vm.2) = false := by simp [hne]
          simp [this]
        · have hne' : (p != vm.2) = true := by simp [hne]
          simp only [hne', if_true]
          by_cases h1 : vm.2 = VMStatus.running
          · by_cases h2 : p = VMStatus.running
            · exact absurd (h2.trans h1.symm) hne
            · have : (vm.2 == VMStatus.running && p != VMStatus.running) = true := by
                simp [h1, h2]
              simp [this, List.count_eq_zero.mpr hstop]
          · have hb1 : (vm.2 == VMStatus.running && p != VMStatus.running) = false := by
              simp [h1]
            by_cases h3 : vm.2 = VMStatus.stopped ∧ p = VMStatus.running
            · have : (vm.2 == VMStatus.stopped && p == VMStatus.running) = true := by
                simp [h3.1, h3.2]
              simp [hb1, this, List.count_eq_zero.mpr hstop2]
            · have : (vm.2 == VMStatus.stopped && p == VMStatus.running) = false := by
                rcases not_and_or.mp h3 with h | h <;> simp [h]
              simp [hb1, this]

theorem removed_count_zero (entries : List (String × VMStatus))
    (ids : List String) (v : String) (hv : ids.contains v = true) :
    (((entries.filter
        (fun p => !(ids.contains p.1) && p.2 == VMStatus.running)).map
      (fun p => AgentEvent.stop p.1)).count (AgentEvent.stop v)) = 0 := by
  rw [List.count_eq_zero]
  intro hmem
  obtain ⟨p, hp, hpv⟩ := List.mem_map.mp hmem
  obtain ⟨hpmem, hpf⟩ := List.mem_filter.mp hp
  have hp1 : p.1 = v := by
    cases hpv
    rfl
  rw [Bool.and_eq_true] at hpf
  rw [hp1, hv] at hpf
  simp at hpf

/-- C8 (amended): on one poll cycle, for a VM present in both the previous
map `P` (last known running) and the probe result `N`, the agent emits
exactly one stop event when the new status is `stopped`, and no stop event
otherwise — in particular none for `paused` or `unknown`, contrary to the
claim that any non-running status triggers a stop. -/
theorem claim8_stop_emission (P N : List (String × VMStatus)) (v : String)
    (nst : VMStatus)
    (hN : (N.map (fun p => p.1)).Nodup)
    (hP : stLookup P v = some VMStatus.running)
    (hNv : stLookup N v = some nst) :
    (poll_vm_states P N).count (AgentEvent.stop v)
      = if nst = VMStatus.stopped then 1 else 0 := by
  unfold poll_vm_states
  rw [List.count_append]
  have h1 := pollLoop_count_stop N P v nst hN hP hNv
  have hvmem : v ∈ N.map (fun vm => vm.1) := by
    unfold stLookup at hNv
    cases hfind : N.find? (fun p => p.1 == v) with
    | none => rw [hfind] at hNv; simp at hNv
    | some z =>
      have hz : z.1 = v := by simpa using List.find?_some hfind
      exact hz ▸ List.mem_map_of_mem (fun vm => vm.1) (List.mem_of_find?_eq_some hfind)
  have hcont : (N.map (fun vm => vm.1)).contains v = true :=
    List.elem_eq_true_of_mem hvmem
  have h2 := removed_count_zero (pollLoop P N).2 (N.map (fun vm => vm.1)) v hcont
  rw [h1, h2]
  omega

/-- C8 witness: the amended emission rule at a concrete poll cycle where the
VM transitions from running to stopped. -/
theorem claim8_stop_emission_witness :
    (([("7", VMStatus.stopped)].map (fun p => p.1)).Nodup ∧
     stLookup [("7", VMStatus.running)] "7" = some VMStatus.running ∧
     stLookup [("7", VMStatus.stopped)] "7" = some VMStatus.stopped) ∧
    (poll_vm_states [("7", VMStatus.running)]
      [("7", VMStatus.stopped)]).count (AgentEvent.stop "7") = 1 := by
  refine ⟨⟨by decide, rfl, rfl⟩, ?_⟩
  have := claim8_stop_emission [("7", VMStatus.running)]
    [("7", VMStatus.stopped)] "7" VMStatus.stopped (by decide) rfl rfl
  simpa using this

/-!  Tracked-VM frame lemmas (claim C10). -/

theorem pyOr_cases (o : Option String) (d : String) :
    pyOr o d = d ∨ pyOr o d ≠ "" := by
  cases o with
  | none => exact Or.inl rfl
  | some s =>
    by_cases h : s = ""
    · subst h
      exact Or.inl (by simp [pyOr])
    · right
      simpa [pyOr, h] using h

theorem trackedFramed_refl (r : TrackedVM) : TrackedFramed r r :=
  ⟨rfl, rfl, rfl, Or.inl rfl, Or.inl rfl⟩

theorem trackedFramed_trans {a b c : TrackedVM}
    (h1 : TrackedFramed a b) (h2 : TrackedFramed b c) : TrackedFramed a c := by
  obtain ⟨i1, n1, t1, s1, m1⟩ := h1
  obtain ⟨i2, n2, t2, s2, m2⟩ := h2
  refine ⟨i2.trans i1, n2.trans n1, t2.trans t1, ?_, ?_⟩
  · rcases s2 with h | h
    · rcases s1 with h' | h'
      · exact Or.inl (h.trans h')
      · exact Or.inr (h ▸ h')
    · exact Or.inr h
  · rcases m2 with h | h
    · rcases m1 with h' | h'
      · exact Or.inl (h.trans h')
      · exact Or.inr (h ▸ h')
    · exact Or.inr h

theorem find?_updateFirst (p : α → Bool) (f : α → α) (l : List α)
    (hpres : ∀ x, p (f x) = p x) :
    (updateFirst p f l).find? p = (l.find? p).map f := by
  induction l with
  | nil => rfl
  | cons a t ih =>
    by_cases hpa : p a = true
    · rw [updateFirst, if_pos hpa]
      rw [List.find?_cons_of_pos _ ((hpres a).trans hpa),
        List.find?_cons_of_pos _ hpa]
      rfl
    · have hpa' : ¬ (p a = true) := hpa
      rw [updateFirst, if_neg hpa]
      rw [List.find?_cons_of_neg _ hpa', List.find?_cons_of_neg _ hpa']
      exact ih

theorem find?_updateFirst_other (p q : α → Bool) (f : α → α) (l : List α)
    (hdisj : ∀ x, p x = true → q x = false ∧ q (f x) = false) :
    (updateFirst p f l).find? q = l.find? q := by
  induction l with
  | nil => rfl
  | cons a t ih =>
    by_cases hpa : p a = true
    · rw [updateFirst, if_pos hpa]
      have hd := hdisj a hpa
      rw [List.find?_cons_of_neg _ (by rw [hd.2]; simp),
        List.find?_cons_of_neg _ (by rw [hd.1]; simp)]
    · rw [updateFirst, if_neg hpa]
      by_cases hqa : q a = true
      · rw [List.find?_cons_of_pos _ hqa, List.find?_cons_of_pos _ hqa]
      · rw [List.find?_cons_of_neg _ hqa, List.find?_cons_of_neg _ hqa]
        exact ih

theorem update_framed_step (tr : List TrackedVM) (vm_id node : String)
    (status name vm_type : Option String) (now : Int) (n v : String)
    (r : TrackedVM) (hr : findTracked tr n v = some r) :
    ∃ r', findTracked (updateTrackedVM tr vm_id node status name vm_type now)
        n v = some r' ∧ TrackedFramed r r' := by
  unfold updateTrackedVM
  unfold findTracked at hr
  by_cases hkey : v = vm_id ∧ n = node
  · obtain ⟨hv, hn⟩ := hkey
    subst hv hn
    have hany : tr.any (fun t => t.vm_id == v && t.node == n) = true := by
      refine List.any_eq_true.mpr ⟨r, List.mem_of_find?_eq_some hr, ?_⟩
      have hp := List.find?_some hr
      exact hp
    rw [if_pos hany]
    have hpres : ∀ t : TrackedVM,
        ((fun t : TrackedVM => t.vm_id == v && t.node == n)
          ({ t with current_status := pyOr status t.current_status,
                    name := pyOr name t.name, last_seen := now }))
        = ((fun t : TrackedVM => t.vm_id == v && t.node == n) t) := by
      intro t
      rfl
    have := find?_updateFirst (fun t : TrackedVM => t.vm_id == v && t.node == n)
      (fun t => { t with current_status := pyOr status t.current_status,
                         name := pyOr name t.name, last_seen := now }) tr hpres
    refine ⟨{ r with current_status := pyOr status r.current_status, name := pyOr name r.name, last_seen := now }, ?_, ?_⟩
    · show (updateFirst _ _ tr).find? _ = _
      rw [this, hr]
      rfl
    · exact ⟨rfl, rfl, rfl, pyOr_cases status r.current_status,
        pyOr_cases name r.name⟩
  · have hdisj : ∀ t : TrackedVM,
        ((fun t : TrackedVM => t.vm_id == vm_id && t.node == node) t) = true →
        ((fun t : TrackedVM => t.vm_id == v && t.node == n) t) = false ∧
        ((fun t : TrackedVM => t.vm_id == v && t.node == n)
          ({ t with current_status := pyOr status t.current_status,
                    name := pyOr name t.name, last_seen := now })) = false := by
      intro t ht
      rw [Bool.and_eq_true, beq_iff_eq, beq_iff_eq] at ht
      have hne : ¬ (t.vm_id = v ∧ t.node = n) := by
        intro hc
        exact hkey ⟨hc.1 ▸ ht.1.symm ▸ rfl, hc.2 ▸ ht.2.symm ▸ rfl⟩
      constructor
      · rcases not_and_or.mp hne with h | h <;> simp [h]
      · rcases not_and_or.mp hne with h | h <;> simp [h]
    by_cases hany : tr.any (fun t => t.vm_id == vm_id && t.node == node) = true
    · rw [if_pos hany]
      refine ⟨r, ?_, trackedFramed_refl r⟩
      show (updateFirst _ _ tr).find? _ = some r
      rw [find?_updateFirst_other _ _ _ _ hdisj]
      exact hr
    · rw [if_neg hany]
      refine ⟨r, ?_, trackedFramed_refl r⟩
      show (tr ++ _).find? _ = some r
      rw [List.find?_append, hr]
      rfl

theorem register_node_tracked (st : Store) (name : String)
    (hostname : Option String) (now : Int) :
    (register_node st name hostname now).tracked = st.tracked := by
  unfold register_node
  by_cases h : (st.nodes.any (fun nd => nd.name == name)) = true
  · rw [if_pos h]
  · rw [if_neg h]

theorem handle_vm_start_tracked (st : Store) (e : VMStartEvent) (now : Int) :
    ((handle_vm_start st e now).1).tracked
      = updateTrackedVM st.tracked e.vm_id e.node (some "running") e.vm_name
          (some e.vm_type) now := by
  unfold handle_vm_start
  cases hfind : (({ st with nodes := updateNodeSeen st.nodes e.node now } : Store).sessions.find? (openPred e.vm_id e.node)) with
  | none => simp only [hfind]
  | some existing =>
    simp only [hfind]
    by_cases hlt : e.start_time < existing.start_time
    · rw [if_pos hlt]
    · rw [if_neg hlt]

theorem handle_vm_stop_tracked (st : Store) (e : VMStopEvent) (now : Int) :
    ((handle_vm_stop st e now).1).tracked
      = updateTrackedVM st.tracked e.vm_id e.node (some "stopped") none none now := by
  unfold handle_vm_stop
  cases hfind : latestOf (({ st with nodes := updateNodeSeen st.nodes e.node now } : Store).sessions.filter (openPred e.vm_id e.node)) with
  | none => simp only [hfind]
  | some sess => simp only [hfind]

theorem statesLoop_tracked (open0 : List VMSession) (node : String)
    (ts now : Int) (vms : List VMStateData) (st : Store) :
    (statesLoop open0 node ts now st vms).tracked
      = vms.foldl (fun tr vm => updateTrackedVM tr vm.vm_id node
          (some vm.status) vm.name (some vm.vm_type) now) st.tracked := by
  induction vms generalizing st with
  | nil => rfl
  | cons vm rest ih =>
    show (statesLoop open0 node ts now _ (vm :: rest)).tracked = _
    unfold statesLoop
    cases hd : dictGet open0 vm.vm_id with
    | none =>
      dsimp only
      by_cases hrun : (vm.status == "running") = true
      · simp only [hd, hrun, if_true]
        exact ih _
      · simp only [hd, if_neg hrun]
        exact ih _
    | some o =>
      by_cases hrun : (vm.status == "running") = true
      · simp only [hd, hrun, if_true]
        exact ih _
      · simp only [hd, if_neg hrun]
        exact ih _

theorem handle_vm_states_tracked (st : Store) (node : String) (ts now : Int)
    (vms : List VMStateData) :
    (handle_vm_states st node ts now vms).tracked
      = vms.foldl (fun tr vm => updateTrackedVM tr vm.vm_id node
          (some vm.status) vm.name (some vm.vm_type) now) st.tracked := by
  unfold handle_vm_states
  exact statesLoop_tracked _ _ _ _ _ _

theorem foldl_update_framed (vms : List VMStateData) (node : String)
    (now : Int) (tr : List TrackedVM) (n v : String) (r : TrackedVM)
    (hr : findTracked tr n v = some r) :
    ∃ r', findTracked (vms.foldl (fun tr vm => updateTrackedVM tr vm.vm_id node
        (some vm.status) vm.name (some vm.vm_type) now) tr) n v = some r'
      ∧ TrackedFramed r r' := by
  induction vms generalizing tr r with
  | nil => exact ⟨r, hr, trackedFramed_refl r⟩
  | cons vm rest ih =>
    obtain ⟨r1, hr1, hf1⟩ := update_framed_step tr vm.vm_id node
      (some vm.status) vm.name (some vm.vm_type) now n v r hr
    obtain ⟨r2, hr2, hf2⟩ := ih _ _ hr1
    exact ⟨r2, hr2, trackedFramed_trans hf1 hf2⟩

/-- C10: an ingest operation applied to a store holding a TrackedVM row for
`(n, v)` leaves a row for `(n, v)` whose `vm_id`, `node` and `vm_type` are
unchanged, and whose `current_status` and `name` are each either unchanged or
replaced by a non-empty value (never overwritten with an empty one). -/
theorem claim10_tracked_frame (st : Store) (op : IngestOp) (n v : String)
    (r : TrackedVM) (hr : findTracked st.tracked n v = some r) :
    ∃ r', findTracked (applyOp st op).tracked n v = some r'
      ∧ TrackedFramed r r' := by
  cases op with
  | register name hostname now =>
    refine ⟨r, ?_, trackedFramed_refl r⟩
    show findTracked (register_node st name hostname now).tracked n v = some r
    rw [register_node_tracked]
    exact hr
  | start e now =>
    show ∃ r', findTracked ((handle_vm_start st e now).1).tracked n v = some r' ∧ _
    rw [handle_vm_start_tracked]
    exact update_framed_step st.tracked e.vm_id e.node (some "running")
      e.vm_name (some e.vm_type) now n v r hr
  | stop e now =>
    show ∃ r', findTracked ((handle_vm_stop st e now).1).tracked n v = some r' ∧ _
    rw [handle_vm_stop_tracked]
    exact update_framed_step st.tracked e.vm_id e.node (some "stopped")
      none none now n v r hr
  | states node ts now vms =>
    show ∃ r', findTracked (handle_vm_states st node ts now vms).tracked n v = some r' ∧ _
    rw [handle_vm_states_tracked]
    exact foldl_update_framed vms node now st.tracked n v r hr

/-- C10 witness: the frame theorem applied to a concrete store and a
`vm_start` event carrying a new name. -/
theorem claim10_tracked_frame_witness :
    findTracked [{ vm_id := "42", node := "A", name := "myvm", vm_type := "qemu", current_status := "stopped", last_seen := 5 }] "A" "42" = some { vm_id := "42", node := "A", name := "myvm", vm_type := "qemu", current_status := "stopped", last_seen := 5 } ∧
    ∃ r', findTracked (applyOp { sessions := [], tracked := [{ vm_id := "42", node := "A", name := "myvm", vm_type := "qemu", current_status := "stopped", last_seen := 5 }], nodes := [], nextId := 1 } (IngestOp.start { node := "A", vm_id := "42", vm_name := some "renamed", vm_type := "qemu", start_time := 10 } 20)).tracked "A" "42" = some r' ∧ TrackedFramed { vm_id := "42", node := "A", name := "myvm", vm_type := "qemu", current_status := "stopped", last_seen := 5 } r' := by
  refine ⟨rfl, ?_⟩
  exact claim10_tracked_frame
    { sessions := [], tracked := [{ vm_id := "42", node := "A", name := "myvm", vm_type := "qemu", current_status := "stopped", last_seen := 5 }], nodes := [], nextId := 1 }
    (IngestOp.start { node := "A", vm_id := "42", vm_name := some "renamed", vm_type := "qemu", start_time := 10 } 20)
    "A" "42"
    { vm_id := "42", node := "A", name := "myvm", vm_type := "qemu", current_status := "stopped", last_seen := 5 }
    rfl

/-!  vm_start lemmas (claim C6). -/

theorem handle_vm_start_existing (st : Store) (e : VMStartEvent) (now : Int)
    (ex : VMSession)
    (hex : st.sessions.find? (openPred e.vm_id e.node) = some ex) :
    (handle_vm_start st e now).2 = ex.id ∧
    (handle_vm_start st e now).1.sessions
      = (if e.start_time < ex.start_time then
          st.sessions.map (fun s =>
            if s.id == ex.id then { s with start_time := e.start_time } else s)
         else st.sessions) := by
  unfold handle_vm_start
  dsimp only
  rw [hex]
  dsimp only
  by_cases hlt : e.start_time < ex.start_time
  · rw [if_pos hlt, if_pos hlt]
    exact ⟨rfl, rfl⟩
  · rw [if_neg hlt, if_neg hlt]
    exact ⟨rfl, rfl⟩

theorem find?_widen (v n : String) (l : List VMSession) (ex : VMSession)
    (t : Int) (hex : l.find? (openPred v n) = some ex) :
    (l.map (fun s =>
      if s.id == ex.id then { s with start_time := t } else s)).find?
        (openPred v n) = some { ex with start_time := t } := by
  rw [List.find?_map]
  have hpf : ((openPred v n) ∘ (fun s =>
      if s.id == ex.id then { s with start_time := t } else s))
      = openPred v n := by
    funext s
    by_cases h : (s.id == ex.id) = true
    · simp only [Function.comp, h, if_true]
      rfl
    · simp only [Function.comp, h]
      simp
  rw [hpf, hex]
  simp

/-- C6: with an open session `ex` for `(node, vm_id)` already present, a
further `vm_start` creates no second session and returns `ex.id`; it rewrites
`start_time` to the event's time exactly when that time is earlier, is a
session-table no-op otherwise, and a repeated identical `vm_start` leaves the
session table unchanged and still returns `ex.id`. -/
theorem claim6_idempotent_start (st : Store) (e : VMStartEvent)
    (now now2 : Int) (ex : VMSession)
    (hex : st.sessions.find? (openPred e.vm_id e.node) = some ex) :
    (handle_vm_start st e now).2 = ex.id ∧
    (handle_vm_start st e now).1.sessions.length = st.sessions.length ∧
    ((handle_vm_start st e now).1.sessions.find? (openPred e.vm_id e.node)
      = some (if e.start_time < ex.start_time then
          { ex with start_time := e.start_time } else ex)) ∧
    (ex.start_time ≤ e.start_time →
      (handle_vm_start st e now).1.sessions = st.sessions) ∧
    (handle_vm_start (handle_vm_start st e now).1 e now2).1.sessions
      = (handle_vm_start st e now).1.sessions ∧
    (handle_vm_start (handle_vm_start st e now).1 e now2).2 = ex.id := by
  obtain ⟨h2, hsess⟩ := handle_vm_start_existing st e now ex hex
  by_cases hlt : e.start_time < ex.start_time
  · rw [if_pos hlt] at hsess
    have hfind2 : (handle_vm_start st e now).1.sessions.find?
        (openPred e.vm_id e.node) = some { ex with start_time := e.start_time } := by
      rw [hsess]
      exact find?_widen e.vm_id e.node st.sessions ex e.start_time hex
    obtain ⟨h2b, hsessb⟩ := handle_vm_start_existing
      (handle_vm_start st e now).1 e now2 _ hfind2
    have hlt2 : ¬ (e.start_time <
        ({ ex with start_time := e.start_time } : VMSession).start_time) := by
      show ¬ (e.start_time < e.start_time)
      omega
    rw [if_neg hlt2] at hsessb
    refine ⟨h2, ?_, ?_, ?_, hsessb, h2b⟩
    · rw [hsess]
      exact List.length_map _ _
    · rw [hfind2, if_pos hlt]
    · intro hle
      exact absurd hlt (not_lt.mpr hle)
  · rw [if_neg hlt] at hsess
    have hfind2 : (handle_vm_start st e now).1.sessions.find?
        (openPred e.vm_id e.node) = some ex := by
      rw [hsess]
      exact hex
    obtain ⟨h2b, hsessb⟩ := handle_vm_start_existing
      (handle_vm_start st e now).1 e now2 ex hfind2
    rw [if_neg hlt] at hsessb
    exact ⟨h2, by rw [hsess], by rw [hfind2, if_neg hlt], fun _ => hsess,
      hsessb, h2b⟩

/-- C6 witness: a second identical `vm_start` against a store with one open
session, at the session's own start time. -/
theorem claim6_idempotent_start_witness :
    (([{ id := 1, vm_id := "42", node := "A", vm_type := "qemu", start_time := 50, end_time := none, duration_seconds := none, user := none, is_running := true }] : List VMSession).find? (openPred "42" "A") = some { id := 1, vm_id := "42", node := "A", vm_type := "qemu", start_time := 50, end_time := none, duration_seconds := none, user := none, is_running := true }) ∧
    ((handle_vm_start { sessions := [{ id := 1, vm_id := "42", node := "A", vm_type := "qemu", start_time := 50, end_time := none, duration_seconds := none, user := none, is_running := true }], tracked := [], nodes := [], nextId := 2 } { node := "A", vm_id := "42", vm_name := none, vm_type := "qemu", start_time := 50 } 60).2 = 1 ∧
     (handle_vm_start { sessions := [{ id := 1, vm_id := "42", node := "A", vm_type := "qemu", start_time := 50, end_time := none, duration_seconds := none, user := none, is_running := true }], tracked := [], nodes := [], nextId := 2 } { node := "A", vm_id := "42", vm_name := none, vm_type := "qemu", start_time := 50 } 60).1.sessions.length = ([{ id := 1, vm_id := "42", node := "A", vm_type := "qemu", start_time := 50, end_time := none, duration_seconds := none, user := none, is_running := true }] : List VMSession).length ∧
     ((handle_vm_start { sessions := [{ id := 1, vm_id := "42", node := "A", vm_type := "qemu", start_time := 50, end_time := none, duration_seconds := none, user := none, is_running := true }], tracked := [], nodes := [], nextId := 2 } { node := "A", vm_id := "42", vm_name := none, vm_type := "qemu", start_time := 50 } 60).1.sessions.find? (openPred "42" "A")
       = some (if (50 : Int) < ({ id := 1, vm_id := "42", node := "A", vm_type := "qemu", start_time := 50, end_time := none, duration_seconds := none, user := none, is_running := true } : VMSession).start_time then { ({ id := 1, vm_id := "42", node := "A", vm_type := "qemu", start_time := 50, end_time := none, duration_seconds := none, user := none, is_running := true } : VMSession) with start_time := (50 : Int) } else { id := 1, vm_id := "42", node := "A", vm_type := "qemu", start_time := 50, end_time := none, duration_seconds := none, user := none, is_running := true })) ∧
     (({ id := 1, vm_id := "42", node := "A", vm_type := "qemu", start_time := 50, end_time := none, duration_seconds := none, user := none, is_running := true } : VMSession).start_time ≤ (50 : Int) →
       (handle_vm_start { sessions := [{ id := 1, vm_id := "42", node := "A", vm_type := "qemu", start_time := 50, end_time := none, duration_seconds := none, user := none, is_running := true }], tracked := [], nodes := [], nextId := 2 } { node := "A", vm_id := "42", vm_name := none, vm_type := "qemu", start_time := 50 } 60).1.sessions = [{ id := 1, vm_id := "42", node := "A", vm_type := "qemu", start_time := 50, end_time := none, duration_seconds := none, user := none, is_running := true }]) ∧
     (handle_vm_start (handle_vm_start { sessions := [{ id := 1, vm_id := "42", node := "A", vm_type := "qemu", start_time := 50, end_time := none, duration_seconds := none, user := none, is_running := true }], tracked := [], nodes := [], nextId := 2 } { node := "A", vm_id := "42", vm_name := none, vm_type := "qemu", start_time := 50 } 60).1 { node := "A", vm_id := "42", vm_name := none, vm_type := "qemu", start_time := 50 } 70).1.sessions
       = (handle_vm_start { sessions := [{ id := 1, vm_id := "42", node := "A", vm_type := "qemu", start_time := 50, end_time := none, duration_seconds := none, user := none, is_running := true }], tracked := [], nodes := [], nextId := 2 } { node := "A", vm_id := "42", vm_name := none, vm_type := "qemu", start_time := 50 } 60).1.sessions ∧
     (handle_vm_start (handle_vm_start { sessions := [{ id := 1, vm_id := "42", node := "A", vm_type := "qemu", start_time := 50, end_time := none, duration_seconds := none, user := none, is_running := true }], tracked := [], nodes := [], nextId := 2 } { node := "A", vm_id := "42", vm_name := none, vm_type := "qemu", start_time := 50 } 60).1 { node := "A", vm_id := "42", vm_name := none, vm_type := "qemu", start_time := 50 } 70).2 = 1) := by
  exact ⟨rfl, claim6_idempotent_start
    { sessions := [{ id := 1, vm_id := "42", node := "A", vm_type := "qemu", start_time := 50, end_time := none, duration_seconds := none, user := none, is_running := true }], tracked := [], nodes := [], nextId := 2 }
    { node := "A", vm_id := "42", vm_name := none, vm_type := "qemu", start_time := 50 }
    60 70
    { id := 1, vm_id := "42", node := "A", vm_type := "qemu", start_time := 50, end_time := none, duration_seconds := none, user := none, is_running := true }
    rfl⟩

/-!  Session-close algebra and id bookkeeping (claims C1, C2, C4, C5). -/

theorem contains_iff_mem {α : Type} [BEq α] [LawfulBEq α] {l : List α} {a : α} :
    l.contains a = true ↔ a ∈ l := by
  induction l with
  | nil => simp
  | cons x t ih =>
    simp only [List.contains_cons, Bool.or_eq_true, beq_iff_eq,
      List.mem_cons, ih]

theorem contains_false_iff {α : Type} [BEq α] [LawfulBEq α] {l : List α}
    {a : α} : l.contains a = false ↔ a ∉ l := by
  constructor
  · intro h hm
    rw [contains_iff_mem.mpr hm] at h
    cases h
  · intro h
    cases hc : l.contains a with
    | false => rfl
    | true => exact absurd (contains_iff_mem.mp hc) h

theorem closeSession_id (ts now : Int) (s : VMSession) :
    (closeSession ts now s).id = s.id := rfl

theorem closeIf_id (ids : List Nat) (ts now : Int) (s : VMSession) :
    (closeIf ids ts now s).id = s.id := by
  unfold closeIf
  split
  · rfl
  · rfl

theorem closeSession_idem (ts now : Int) (s : VMSession) :
    closeSession ts now (closeSession ts now s) = closeSession ts now s := rfl

theorem contains_append {α : Type} [BEq α] [LawfulBEq α] (l₁ l₂ : List α)
    (a : α) :
    (l₁ ++ l₂).contains a = (l₁.contains a || l₂.contains a) := by
  induction l₁ with
  | nil => simp
  | cons x t ih => simp [List.contains_cons, ih, Bool.or_assoc]

theorem closeIf_append (A B : List Nat) (ts now : Int) (s : VMSession) :
    closeIf A ts now (closeIf B ts now s) = closeIf (B ++ A) ts now s := by
  unfold closeIf
  rw [contains_append]
  by_cases hB : B.contains s.id = true
  · rw [if_pos hB, closeSession_id]
    by_cases hA : A.contains s.id = true
    · rw [if_pos hA, if_pos (by rw [hB]; simp), closeSession_idem]
    · rw [if_neg hA, if_pos (by rw [hB]; simp)]
  · have hB' : B.contains s.id = false := Bool.of_not_eq_true hB
    rw [if_neg hB, hB', Bool.false_or]

theorem map_closeIf_closeIf (A B : List Nat) (ts now : Int)
    (l : List VMSession) :
    (l.map (closeIf B ts now)).map (closeIf A ts now)
      = l.map (closeIf (B ++ A) ts now) := by
  rw [List.map_map]
  apply List.map_congr_left
  intro s _
  exact closeIf_append A B ts now s

theorem closeIf_not_mem (ids : List Nat) (ts now : Int) (s : VMSession)
    (h : s.id ∉ ids) : closeIf ids ts now s = s := by
  unfold closeIf
  rw [contains_false_iff.mpr h]
  simp

theorem closeIf_nil (ts now : Int) (s : VMSession) :
    closeIf [] ts now s = s := rfl

theorem dictGet_mem (l : List VMSession) (k : String) (o : VMSession)
    (h : dictGet l k = some o) : o ∈ l ∧ o.vm_id = k := by
  unfold dictGet at h
  have hmem := List.mem_of_find?_eq_some h
  have hpred := List.find?_some h
  exact ⟨List.mem_reverse.mp hmem, by simpa using hpred⟩

theorem dictGet_isSome_of_mem (l : List VMSession) (s : VMSession)
    (hs : s ∈ l) (k : String) (hk : s.vm_id = k) :
    ∃ o, dictGet l k = some o ∧ o ∈ l ∧ o.vm_id = k := by
  have hsome : (l.reverse.find? (fun s => s.vm_id == k)).isSome := by
    rw [List.find?_isSome]
    exact ⟨s, List.mem_reverse.mpr hs, by simp [hk]⟩
  obtain ⟨o, ho⟩ := Option.isSome_iff_exists.mp hsome
  exact ⟨o, ho, dictGet_mem l k o ho⟩

theorem dictGet_none_iff (l : List VMSession) (k : String) :
    dictGet l k = none ↔ ∀ s ∈ l, s.vm_id ≠ k := by
  unfold dictGet
  rw [List.find?_eq_none]
  constructor
  · intro h s hs hc
    exact h s (List.mem_reverse.mpr hs) (by simp [hc])
  · intro h s hs hc
    exact h s (List.mem_reverse.mp hs) (by simpa using hc)

theorem countP_ge_two (l : List α) (p : α → Bool) (a b : α) (ha : a ∈ l)
    (hb : b ∈ l) (hne : a ≠ b) (hpa : p a = true) (hpb : p b = true) :
    2 ≤ l.countP p := by
  induction l with
  | nil => cases ha
  | cons x t ih =>
    rw [List.countP_cons]
    rcases List.mem_cons.mp ha with ha1 | ha1
    · have hbt : b ∈ t := by
        rcases List.mem_cons.mp hb with hb1 | hb1
        · exact absurd (ha1.trans hb1.symm) hne
        · exact hb1
      have h1 : 1 ≤ t.countP p := List.one_le_countP_iff.mpr ⟨b, hbt, hpb⟩
      rw [ha1] at hpa
      rw [if_pos hpa]
      omega
    · rcases List.mem_cons.mp hb with hb1 | hb1
      · have h1 : 1 ≤ t.countP p := List.one_le_countP_iff.mpr ⟨a, ha1, hpa⟩
        rw [hb1] at hpb
        rw [if_pos hpb]
        omega
      · have := ih ha1 hb1
        omega

theorem countP_le_one_keys {β : Type} [BEq β] [LawfulBEq β] (l : List α)
    (g : α → β) (hnd : (l.map g).Nodup) (k : β) (q : α → Bool) :
    l.countP (fun x => (g x == k) && q x) ≤ 1 := by
  induction l with
  | nil => simp
  | cons x t ih =>
    rw [List.map_cons, List.nodup_cons] at hnd
    rw [List.countP_cons]
    by_cases hx : ((g x == k) && q x) = true
    · have hgx : g x = k := by
        rw [Bool.and_eq_true] at hx
        exact beq_iff_eq.mp hx.1
      have hzero : t.countP (fun y => (g y == k) && q y) = 0 := by
        rw [List.countP_eq_zero]
        intro y hy hc
        rw [Bool.and_eq_true] at hc
        have hgy : g y = k := beq_iff_eq.mp hc.1
        refine hnd.1 ?_
        rw [hgx, ← hgy]
        exact List.mem_map_of_mem g hy
      rw [hzero, if_pos hx]
    · rw [if_neg hx]
      have := ih hnd.2
      omega

/-!  newSessionsAux structure lemmas. -/

theorem newSessionsAux_snd (open0 : List VMSession) (node : String)
    (ts now : Int) (vms : List VMStateData) (nid : Nat) :
    nid ≤ (newSessionsAux open0 node ts now nid vms).2 := by
  induction vms generalizing nid with
  | nil => exact Nat.le_refl nid
  | cons vm rest ih =>
    unfold newSessionsAux
    by_cases hc : ((vm.status == "running") && (dictGet open0 vm.vm_id).isNone) = true
    · rw [if_pos hc]
      exact Nat.le_trans (Nat.le_succ nid) (ih (nid + 1))
    · rw [if_neg hc]
      exact ih nid

theorem newSessionsAux_mem_id (open0 : List VMSession) (node : String)
    (ts now : Int) (vms : List VMStateData) (nid : Nat) :
    ∀ s ∈ (newSessionsAux open0 node ts now nid vms).1,
      nid ≤ s.id ∧ s.id < (newSessionsAux open0 node ts now nid vms).2 := by
  induction vms generalizing nid with
  | nil => intro s hs; cases hs
  | cons vm rest ih =>
    intro s hs
    unfold newSessionsAux at hs ⊢
    by_cases hc : ((vm.status == "running") && (dictGet open0 vm.vm_id).isNone) = true
    · rw [if_pos hc] at hs ⊢
      rcases List.mem_cons.mp hs with h | h
      · subst h
        exact ⟨Nat.le_refl nid,
          Nat.lt_of_lt_of_le (Nat.lt_succ_self nid)
            (newSessionsAux_snd open0 node ts now rest (nid + 1))⟩
      · have := ih (nid + 1) s h
        exact ⟨Nat.le_trans (Nat.le_succ nid) this.1, this.2⟩
    · rw [if_neg hc] at hs ⊢
      exact ih nid s hs

theorem newSessionsAux_ids_nodup (open0 : List VMSession) (node : String)
    (ts now : Int) (vms : List VMStateData) (nid : Nat) :
    ((newSessionsAux open0 node ts now nid vms).1.map (fun s => s.id)).Nodup := by
  induction vms generalizing nid with
  | nil => exact List.nodup_nil
  | cons vm rest ih =>
    unfold newSessionsAux
    by_cases hc : ((vm.status == "running") && (dictGet open0 vm.vm_id).isNone) = true
    · rw [if_pos hc]
      rw [List.map_cons, List.nodup_cons]
      constructor
      · intro hmem
        obtain ⟨s, hs, hsid⟩ := List.mem_map.mp hmem
        have := (newSessionsAux_mem_id open0 node ts now rest (nid + 1) s hs).1
        rw [hsid] at this
        show False
        have : nid + 1 ≤ (mkSnapSession nid node ts now vm).id := this
        simp [mkSnapSession] at this
      · exact ih (nid + 1)
    · rw [if_neg hc]
      exact ih nid

theorem newSessionsAux_shape (open0 : List VMSession) (node : String)
    (ts now : Int) (vms : List VMStateData) (nid : Nat) :
    ∀ s ∈ (newSessionsAux open0 node ts now nid vms).1,
      s.is_running = true ∧ s.node = node ∧
      ∃ vm ∈ vms, (vm.status == "running") = true ∧
        dictGet open0 vm.vm_id = none ∧ s.vm_id = vm.vm_id ∧
        s.start_time = (if vm.uptime > 0 then now - vm.uptime else ts) := by
  induction vms generalizing nid with
  | nil => intro s hs; cases hs
  | cons vm rest ih =>
    intro s hs
    unfold newSessionsAux at hs
    by_cases hc : ((vm.status == "running") && (dictGet open0 vm.vm_id).isNone) = true
    · rw [if_pos hc] at hs
      rw [Bool.and_eq_true] at hc
      rcases List.mem_cons.mp hs with h | h
      · subst h
        exact ⟨rfl, rfl, vm, List.mem_cons_self vm rest, hc.1,
          Option.isNone_iff_eq_none.mp hc.2, rfl, rfl⟩
      · obtain ⟨h1, h2, vm', hvm', hrest⟩ := ih (nid + 1) s h
        exact ⟨h1, h2, vm', List.mem_cons_of_mem vm hvm', hrest⟩
    · rw [if_neg hc] at hs
      obtain ⟨h1, h2, vm', hvm', hrest⟩ := ih nid s hs
      exact ⟨h1, h2, vm', List.mem_cons_of_mem vm hvm', hrest⟩

theorem newSessionsAux_exists (open0 : List VMSession) (node : String)
    (ts now : Int) (vms : List VMStateData) (nid : Nat) (vm : VMStateData)
    (hvm : vm ∈ vms) (hrun : (vm.status == "running") = true)
    (hnone : dictGet open0 vm.vm_id = none) :
    ∃ s ∈ (newSessionsAux open0 node ts now nid vms).1,
      s.vm_id = vm.vm_id ∧ s.is_running = true ∧ s.node = node ∧
      s.start_time = (if vm.uptime > 0 then now - vm.uptime else ts) := by
  induction vms generalizing nid with
  | nil => cases hvm
  | cons vm0 rest ih =>
    unfold newSessionsAux
    rcases List.mem_cons.mp hvm with h | h
    · subst h
      have hc : ((vm.status == "running") && (dictGet open0 vm.vm_id).isNone) = true := by
        rw [Bool.and_eq_true]
        exact ⟨hrun, by rw [hnone]; rfl⟩
      rw [if_pos hc]
      exact ⟨mkSnapSession nid node ts now vm,
        List.mem_cons_self _ _, rfl, rfl, rfl, rfl⟩
    · by_cases hc : ((vm0.status == "running") && (dictGet open0 vm0.vm_id).isNone) = true
      · rw [if_pos hc]
        obtain ⟨s, hs, hprops⟩ := ih (nid + 1) h
        exact ⟨s, List.mem_cons_of_mem _ hs, hprops⟩
      · rw [if_neg hc]
        exact ih nid h

theorem newSessionsAux_countP (open0 : List VMSession) (node : String)
    (ts now : Int) (n v : String) (vms : List VMStateData) (nid : Nat) :
    ((newSessionsAux open0 node ts now nid vms).1.countP
      (fun s => s.is_running && s.node == n && s.vm_id == v))
    = vms.countP (fun vm => ((vm.status == "running")
        && (dictGet open0 vm.vm_id).isNone) && ((node == n) && (vm.vm_id == v))) := by
  induction vms generalizing nid with
  | nil => rfl
  | cons vm rest ih =>
    unfold newSessionsAux
    by_cases hc : ((vm.status == "running") && (dictGet open0 vm.vm_id).isNone) = true
    · rw [if_pos hc]
      rw [List.countP_cons, List.countP_cons, ih (nid + 1)]
      congr 1
      have hmk : ((mkSnapSession nid node ts now vm).is_running
            && ((mkSnapSession nid node ts now vm).node == n)
            && ((mkSnapSession nid node ts now vm).vm_id == v))
          = (((vm.status == "running") && (dictGet open0 vm.vm_id).isNone)
            && ((node == n) && (vm.vm_id == v))) := by
        show ((true && (node == n)) && (vm.vm_id == v)) = _
        rw [hc, Bool.true_and, Bool.true_and]
      exact if_congr (by rw [hmk]) rfl rfl
    · rw [if_neg hc]
      rw [List.countP_cons]
      have hq : (((vm.status == "running") && (dictGet open0 vm.vm_id).isNone)
          && ((node == n) && (vm.vm_id == v))) = false := by
        rw [Bool.of_not_eq_true hc, Bool.false_and]
      rw [hq]
      simp only [Bool.false_eq_true, if_false, Nat.add_zero]
      exact ih nid

/-!  mainCloseIds and finalCloseIds membership. -/

theorem mem_mainCloseIds_intro (open0 : List VMSession)
    (vms : List VMStateData) (vm : VMStateData) (o : VMSession)
    (hvm : vm ∈ vms) (hns : (vm.status == "running") = false)
    (ho : dictGet open0 vm.vm_id = some o) :
    o.id ∈ mainCloseIds open0 vms := by
  unfold mainCloseIds
  refine List.mem_filterMap.mpr ⟨vm, hvm, ?_⟩
  rw [hns]
  simp [ho]

theorem mem_mainCloseIds_elim (open0 : List VMSession)
    (vms : List VMStateData) (i : Nat) (h : i ∈ mainCloseIds open0 vms) :
    ∃ vm ∈ vms, (vm.status == "running") = false ∧
      ∃ o, dictGet open0 vm.vm_id = some o ∧ o.id = i := by
  unfold mainCloseIds at h
  obtain ⟨vm, hvm, heq⟩ := List.mem_filterMap.mp h
  by_cases hr : (vm.status == "running") = true
  · rw [if_pos hr] at heq
    cases heq
  · rw [if_neg hr] at heq
    cases ho : dictGet open0 vm.vm_id with
    | none => rw [ho] at heq; cases heq
    | some o =>
      rw [ho] at heq
      refine ⟨vm, hvm, Bool.of_not_eq_true hr, o, ho, ?_⟩
      simpa using heq

theorem mem_finalCloseIds_intro (open0 : List VMSession)
    (vms : List VMStateData) (k : String) (o : VMSession)
    (hk : k ∈ dictKeys open0)
    (hnotin : (vms.map (fun vm => vm.vm_id)).contains k = false)
    (ho : dictGet open0 k = some o) :
    o.id ∈ finalCloseIds open0 vms := by
  unfold finalCloseIds
  refine List.mem_filterMap.mpr ⟨k, hk, ?_⟩
  rw [hnotin]
  simp [ho]

theorem mem_finalCloseIds_elim (open0 : List VMSession)
    (vms : List VMStateData) (i : Nat) (h : i ∈ finalCloseIds open0 vms) :
    ∃ k ∈ dictKeys open0, (vms.map (fun vm => vm.vm_id)).contains k = false ∧
      ∃ o, dictGet open0 k = some o ∧ o.id = i := by
  unfold finalCloseIds at h
  obtain ⟨k, hk, heq⟩ := List.mem_filterMap.mp h
  by_cases hc : ((vms.map (fun vm => vm.vm_id)).contains k) = true
  · rw [if_pos hc] at heq
    cases heq
  · rw [if_neg hc] at heq
    cases ho : dictGet open0 k with
    | none => rw [ho] at heq; cases heq
    | some o =>
      rw [ho] at heq
      refine ⟨k, hk, Bool.of_not_eq_true hc, o, ho, ?_⟩
      simpa using heq

theorem mainCloseIds_sub (open0 : List VMSession) (vms : List VMStateData) :
    ∀ i ∈ mainCloseIds open0 vms, ∃ o ∈ open0, o.id = i := by
  intro i h
  obtain ⟨vm, _, _, o, ho, hoid⟩ := mem_mainCloseIds_elim open0 vms i h
  exact ⟨o, (dictGet_mem open0 vm.vm_id o ho).1, hoid⟩

theorem finalCloseIds_sub (open0 : List VMSession) (vms : List VMStateData) :
    ∀ i ∈ finalCloseIds open0 vms, ∃ o ∈ open0, o.id = i := by
  intro i h
  obtain ⟨k, _, _, o, ho, hoid⟩ := mem_finalCloseIds_elim open0 vms i h
  exact ⟨o, (dictGet_mem open0 k o ho).1, hoid⟩

theorem mainCloseIds_cons_running (open0 : List VMSession) (vm : VMStateData)
    (rest : List VMStateData) (hrun : (vm.status == "running") = true) :
    mainCloseIds open0 (vm :: rest) = mainCloseIds open0 rest := by
  unfold mainCloseIds
  rw [List.filterMap_cons]
  rw [hrun]
  simp

theorem mainCloseIds_cons_stopped_none (open0 : List VMSession)
    (vm : VMStateData) (rest : List VMStateData)
    (hrun : (vm.status == "running") = false)
    (hd : dictGet open0 vm.vm_id = none) :
    mainCloseIds open0 (vm :: rest) = mainCloseIds open0 rest := by
  unfold mainCloseIds
  rw [List.filterMap_cons, hrun]
  simp [hd]

theorem mainCloseIds_cons_stopped_some (open0 : List VMSession)
    (vm : VMStateData) (rest : List VMStateData) (o : VMSession)
    (hrun : (vm.status == "running") = false)
    (hd : dictGet open0 vm.vm_id = some o) :
    mainCloseIds open0 (vm :: rest) = o.id :: mainCloseIds open0 rest := by
  unfold mainCloseIds
  rw [List.filterMap_cons, hrun]
  simp [hd]

theorem newSessionsAux_cons_pos (open0 : List VMSession) (node : String)
    (ts now : Int) (nid : Nat) (vm : VMStateData) (rest : List VMStateData)
    (hc : ((vm.status == "running") && (dictGet open0 vm.vm_id).isNone) = true) :
    newSessionsAux open0 node ts now nid (vm :: rest)
      = (mkSnapSession nid node ts now vm
          :: (newSessionsAux open0 node ts now (nid + 1) rest).1,
         (newSessionsAux open0 node ts now (nid + 1) rest).2) := by
  conv_lhs => rw [newSessionsAux]
  rw [if_pos hc]

theorem newSessionsAux_cons_neg (open0 : List VMSession) (node : String)
    (ts now : Int) (nid : Nat) (vm : VMStateData) (rest : List VMStateData)
    (hc : ((vm.status == "running") && (dictGet open0 vm.vm_id).isNone) = false) :
    newSessionsAux open0 node ts now nid (vm :: rest)
      = newSessionsAux open0 node ts now nid rest := by
  conv_lhs => rw [newSessionsAux]
  rw [if_neg (by rw [hc]; exact Bool.false_ne_true)]

theorem statesLoop_sessions (open0 : List VMSession) (node : String)
    (ts now : Int) (vms : List VMStateData) (st : Store)
    (hopen : ∀ o ∈ open0, o.id < st.nextId) :
    (statesLoop open0 node ts now st vms).sessions
      = st.sessions.map (closeIf (mainCloseIds open0 vms) ts now)
        ++ (newSessionsAux open0 node ts now st.nextId vms).1
    ∧ (statesLoop open0 node ts now st vms).nextId
      = (newSessionsAux open0 node ts now st.nextId vms).2 := by
  induction vms generalizing st with
  | nil =>
    have h0 : (closeIf ([] : List Nat) ts now) = id :=
      funext (fun s => closeIf_nil ts now s)
    constructor
    · show st.sessions = _
      rw [show mainCloseIds open0 [] = [] from rfl, h0, List.map_id,
        show (newSessionsAux open0 node ts now st.nextId []).1 = [] from rfl,
        List.append_nil]
    · rfl
  | cons vm rest ih =>
    unfold statesLoop
    cases hd : dictGet open0 vm.vm_id with
    | none =>
      dsimp only
      by_cases hrun : (vm.status == "running") = true
      · have hcond : ((vm.status == "running")
            && (dictGet open0 vm.vm_id).isNone) = true := by
          rw [Bool.and_eq_true]
          exact ⟨hrun, by rw [hd]; rfl⟩
        rw [if_pos hrun]
        have hopen2 : ∀ o ∈ open0, o.id <
            ({ st with
                tracked := updateTrackedVM st.tracked vm.vm_id node
                  (some vm.status) vm.name (some vm.vm_type) now,
                sessions := st.sessions ++
                  [mkSnapSession st.nextId node ts now vm],
                nextId := st.nextId + 1 } : Store).nextId := by
          intro o ho
          have h := hopen o ho
          show o.id < st.nextId + 1
          omega
        obtain ⟨ihs, ihn⟩ := ih _ hopen2
        constructor
        · rw [ihs]
          show (st.sessions ++ [mkSnapSession st.nextId node ts now vm]).map
              (closeIf (mainCloseIds open0 rest) ts now)
            ++ (newSessionsAux open0 node ts now (st.nextId + 1) rest).1 = _
          have hmk : (closeIf (mainCloseIds open0 rest) ts now)
              (mkSnapSession st.nextId node ts now vm)
              = mkSnapSession st.nextId node ts now vm := by
            apply closeIf_not_mem
            intro hmem
            obtain ⟨o, ho, hoid⟩ := mainCloseIds_sub open0 rest _ hmem
            have := hopen o ho
            rw [hoid] at this
            simp only [mkSnapSession] at this
            omega
          rw [List.map_append, List.map_cons, List.map_nil, hmk]
          rw [mainCloseIds_cons_running open0 vm rest hrun]
          rw [newSessionsAux_cons_pos open0 node ts now st.nextId vm rest hcond]
          rw [List.append_assoc]
          rfl
        · rw [ihn]
          show (newSessionsAux open0 node ts now (st.nextId + 1) rest).2 = _
          rw [newSessionsAux_cons_pos open0 node ts now st.nextId vm rest hcond]
      · have hrun' : (vm.status == "running") = false := Bool.of_not_eq_true hrun
        have hcond : ((vm.status == "running")
            && (dictGet open0 vm.vm_id).isNone) = false := by
          rw [hrun', Bool.false_and]
        rw [if_neg hrun]
        obtain ⟨ihs, ihn⟩ := ih
          ({ st with tracked := updateTrackedVM st.tracked vm.vm_id node (some vm.status) vm.name (some vm.vm_type) now } : Store)
          (by intro o ho; exact hopen o ho)
        constructor
        · rw [ihs]
          rw [mainCloseIds_cons_stopped_none open0 vm rest hrun' hd]
          rw [newSessionsAux_cons_neg open0 node ts now st.nextId vm rest hcond]
        · rw [ihn]
          rw [newSessionsAux_cons_neg open0 node ts now st.nextId vm rest hcond]
    | some o =>
      dsimp only
      have hcondS : ((vm.status == "running")
          && (dictGet open0 vm.vm_id).isNone) = false := by
        rw [hd]
        simp
      by_cases hrun : (vm.status == "running") = true
      · rw [if_pos hrun]
        obtain ⟨ihs, ihn⟩ := ih
          ({ st with tracked := updateTrackedVM st.tracked vm.vm_id node (some vm.status) vm.name (some vm.vm_type) now } : Store)
          (by intro o' ho'; exact hopen o' ho')
        constructor
        · rw [ihs]
          rw [mainCloseIds_cons_running open0 vm rest hrun]
          rw [newSessionsAux_cons_neg open0 node ts now st.nextId vm rest hcondS]
        · rw [ihn]
          rw [newSessionsAux_cons_neg open0 node ts now st.nextId vm rest hcondS]
      · have hrun' : (vm.status == "running") = false := Bool.of_not_eq_true hrun
        rw [if_neg hrun]
        obtain ⟨ihs, ihn⟩ := ih
          ({ st with
              tracked := updateTrackedVM st.tracked vm.vm_id node
                (some vm.status) vm.name (some vm.vm_type) now,
              sessions := st.sessions.map (closeIf [o.id] ts now) } : Store)
          (by intro o' ho'; exact hopen o' ho')
        constructor
        · rw [ihs]
          show (st.sessions.map (closeIf [o.id] ts now)).map
              (closeIf (mainCloseIds open0 rest) ts now)
            ++ (newSessionsAux open0 node ts now st.nextId rest).1 = _
          rw [map_closeIf_closeIf]
          rw [mainCloseIds_cons_stopped_some open0 vm rest o hrun' hd]
          rw [newSessionsAux_cons_neg open0 node ts now st.nextId vm rest hcondS]
          rfl
        · rw [ihn]
          rw [newSessionsAux_cons_neg open0 node ts now st.nextId vm rest hcondS]

theorem handle_vm_states_sessions (st : Store) (node : String) (ts now : Int)
    (vms : List VMStateData)
    (hlt : ∀ s ∈ st.sessions, s.id < st.nextId) :
    (handle_vm_states st node ts now vms).sessions
      = st.sessions.map (closeIf
          (mainCloseIds (openFor st.sessions node) vms
            ++ finalCloseIds (openFor st.sessions node) vms) ts now)
        ++ (newSessionsAux (openFor st.sessions node) node ts now
              st.nextId vms).1
    ∧ (handle_vm_states st node ts now vms).nextId
      = (newSessionsAux (openFor st.sessions node) node ts now st.nextId vms).2 := by
  have hopen : ∀ o ∈ openFor st.sessions node, o.id < st.nextId := by
    intro o ho
    exact hlt o (List.mem_filter.mp ho).1
  obtain ⟨hsess, hnid⟩ := statesLoop_sessions (openFor st.sessions node) node
    ts now vms
    ({ st with nodes := updateNodeSeen st.nodes node now } : Store)
    (by intro o ho; exact hopen o ho)
  constructor
  · show ((statesLoop (openFor st.sessions node) node ts now
        ({ st with nodes := updateNodeSeen st.nodes node now } : Store)
        vms).sessions).map
          (closeIf (finalCloseIds (openFor st.sessions node) vms) ts now) = _
    rw [hsess]
    rw [List.map_append, map_closeIf_closeIf]
    have hnew : ((newSessionsAux (openFor st.sessions node) node ts now
        st.nextId vms).1.map
          (closeIf (finalCloseIds (openFor st.sessions node) vms) ts now))
        = (newSessionsAux (openFor st.sessions node) node ts now
            st.nextId vms).1 := by
      have hcong : ((newSessionsAux (openFor st.sessions node) node ts now
          st.nextId vms).1.map
            (closeIf (finalCloseIds (openFor st.sessions node) vms) ts now))
          = ((newSessionsAux (openFor st.sessions node) node ts now
              st.nextId vms).1.map id) := by
        apply List.map_congr_left
        intro s hs
        apply closeIf_not_mem
        intro hmem
        obtain ⟨o, ho, hoid⟩ := finalCloseIds_sub (openFor st.sessions node)
          vms _ hmem
        have h1 := hopen o ho
        have h2 := (newSessionsAux_mem_id (openFor st.sessions node) node
          ts now vms st.nextId s hs).1
        omega
      rw [hcong, List.map_id]
    rw [hnew]
  · show (statesLoop (openFor st.sessions node) node ts now
        ({ st with nodes := updateNodeSeen st.nodes node now } : Store)
        vms).nextId = _
    exact hnid

/-!  Per-operation characterizations of the session table. -/

theorem register_node_sessions (st : Store) (name : String)
    (hostname : Option String) (now : Int) :
    (register_node st name hostname now).sessions = st.sessions
    ∧ (register_node st name hostname now).nextId = st.nextId := by
  unfold register_node
  by_cases h : (st.nodes.any (fun nd => nd.name == name)) = true
  · rw [if_pos h]
    exact ⟨rfl, rfl⟩
  · rw [if_neg h]
    exact ⟨rfl, rfl⟩

theorem handle_vm_start_sessions (st : Store) (e : VMStartEvent) (now : Int) :
    (∃ ex, st.sessions.find? (openPred e.vm_id e.node) = some ex ∧
      ((handle_vm_start st e now).1.sessions = st.sessions ∨
       (handle_vm_start st e now).1.sessions
         = st.sessions.map (fun s =>
             if s.id == ex.id then { s with start_time := e.start_time } else s))
      ∧ (handle_vm_start st e now).1.nextId = st.nextId)
    ∨ (st.sessions.find? (openPred e.vm_id e.node) = none ∧
       (handle_vm_start st e now).1.sessions = st.sessions ++
         [⟨st.nextId, e.vm_id, e.node, e.vm_type, e.start_time, none, none,
           none, true⟩]
       ∧ (handle_vm_start st e now).1.nextId = st.nextId + 1) := by
  unfold handle_vm_start
  dsimp only
  cases hfind : st.sessions.find? (openPred e.vm_id e.node) with
  | some ex =>
    dsimp only
    left
    refine ⟨ex, rfl, ?_, ?_⟩
    · by_cases hlt : e.start_time < ex.start_time
      · rw [if_pos hlt]
        right
        rfl
      · rw [if_neg hlt]
        left
        rfl
    · by_cases hlt : e.start_time < ex.start_time
      · rw [if_pos hlt]
      · rw [if_neg hlt]
  | none =>
    dsimp only
    right
    exact ⟨rfl, rfl, rfl⟩

theorem handle_vm_stop_sessions (st : Store) (e : VMStopEvent) (now : Int) :
    ((handle_vm_stop st e now).1.nextId = st.nextId) ∧
    ((handle_vm_stop st e now).1.sessions = st.sessions ∨
     ∃ sess, latestOf (st.sessions.filter (openPred e.vm_id e.node)) = some sess
       ∧ (handle_vm_stop st e now).1.sessions
         = st.sessions.map (fun s =>
             if s.id == sess.id then closeSession e.stop_time now s else s)) := by
  unfold handle_vm_stop
  dsimp only
  cases hfind : latestOf (st.sessions.filter (openPred e.vm_id e.node)) with
  | none => exact ⟨rfl, Or.inl rfl⟩
  | some sess => exact ⟨rfl, Or.inr ⟨sess, rfl, rfl⟩⟩

theorem map_ids_eq (l : List VMSession) (f : VMSession → VMSession)
    (h : ∀ s, (f s).id = s.id) :
    (l.map f).map (fun s => s.id) = l.map (fun s => s.id) := by
  rw [List.map_map]
  apply List.map_congr_left
  intro s _
  exact h s

theorem widen_id (ex : VMSession) (t : Int) (s : VMSession) :
    ((fun s => if s.id == ex.id then { s with start_time := t } else s) s).id
      = s.id := by
  dsimp only
  by_cases h : (s.id == ex.id) = true
  · rw [if_pos h]
  · rw [if_neg h]

theorem stopclose_id (sid : Nat) (ts now : Int) (s : VMSession) :
    ((fun s => if s.id == sid then closeSession ts now s else s) s).id
      = s.id := by
  dsimp only
  by_cases h : (s.id == sid) = true
  · rw [if_pos h]
    rfl
  · rw [if_neg h]

/-!  Preservation of well-formedness and the closed-duration form. -/

theorem applyOp_preserves_wf (st : Store) (op : IngestOp)
    (h1 : StoreWF st) (h2 : ClosedDurOK st) :
    StoreWF (applyOp st op) ∧ ClosedDurOK (applyOp st op) := by
  obtain ⟨hnd, hlt⟩ := h1
  cases op with
  | register name hostname now =>
    show StoreWF (register_node st name hostname now)
      ∧ ClosedDurOK (register_node st name hostname now)
    obtain ⟨hs, hn⟩ := register_node_sessions st name hostname now
    refine ⟨⟨?_, ?_⟩, ?_⟩
    · show (((register_node st name hostname now).sessions).map
        (fun s => s.id)).Nodup
      rw [hs]
      exact hnd
    · intro s hsm
      rw [hs] at hsm
      rw [hn]
      exact hlt s hsm
    · intro s hsm hr
      rw [hs] at hsm
      exact h2 s hsm hr
  | start e now =>
    show StoreWF ((handle_vm_start st e now).1)
      ∧ ClosedDurOK ((handle_vm_start st e now).1)
    rcases handle_vm_start_sessions st e now with
      ⟨ex, hfind, hsess, hnid⟩ | ⟨hfind, hsess, hnid⟩
    · rcases hsess with hsess | hsess
      · refine ⟨⟨?_, ?_⟩, ?_⟩
        · show (((handle_vm_start st e now).1.sessions).map
            (fun s => s.id)).Nodup
          rw [hsess]
          exact hnd
        · intro s hsm
          rw [hsess] at hsm
          rw [hnid]
          exact hlt s hsm
        · intro s hsm hr
          rw [hsess] at hsm
          exact h2 s hsm hr
    -- widening branch
      · have hex_mem := List.mem_of_find?_eq_some hfind
        have hex_pred := List.find?_some hfind
        have hex_run : ex.is_running = true := by
          unfold openPred at hex_pred
          rw [Bool.and_eq_true, Bool.and_eq_true] at hex_pred
          exact hex_pred.2
        constructor
        · constructor
          · show ((handle_vm_start st e now).1.sessions.map (fun s => s.id)).Nodup
            rw [hsess, map_ids_eq st.sessions _ (widen_id ex e.start_time)]
            exact hnd
          · intro s hs
            rw [hsess] at hs
            obtain ⟨s0, hs0, hfs⟩ := List.mem_map.mp hs
            rw [hnid, ← hfs, widen_id ex e.start_time s0]
            exact hlt s0 hs0
        · intro s hs hrun
          rw [hsess] at hs
          obtain ⟨s0, hs0, hfs⟩ := List.mem_map.mp hs
          by_cases hid : (s0.id == ex.id) = true
          · exfalso
            have hs0ex : s0 = ex :=
              List.inj_on_of_nodup_map hnd hs0 hex_mem (beq_iff_eq.mp hid)
            rw [← hfs] at hrun
            rw [if_pos hid] at hrun
            have : s0.is_running = false := hrun
            rw [hs0ex, hex_run] at this
            cases this
          · rw [← hfs, if_neg hid] at hrun ⊢
            exact h2 s0 hs0 hrun
    · constructor
      · constructor
        · show ((handle_vm_start st e now).1.sessions.map (fun s => s.id)).Nodup
          rw [hsess, List.map_append]
          apply List.Nodup.append hnd (List.nodup_singleton _)
          intro a ha hb
          obtain ⟨s0, hs0, hid⟩ := List.mem_map.mp ha
          have := hlt s0 hs0
          have hb' : a = st.nextId := by simpa using hb
          omega
        · intro s hs
          rw [hsess] at hs
          rw [hnid]
          rcases List.mem_append.mp hs with h | h
          · have := hlt s h
            omega
          · have hseq : s = ⟨st.nextId, e.vm_id, e.node, e.vm_type,
                e.start_time, none, none, none, true⟩ := by simpa using h
            rw [hseq]
            show st.nextId < st.nextId + 1
            omega
      · intro s hs hrun
        rw [hsess] at hs
        rcases List.mem_append.mp hs with h | h
        · exact h2 s h hrun
        · have heq : s = ⟨st.nextId, e.vm_id, e.node, e.vm_type, e.start_time,
              none, none, none, true⟩ := by simpa using h
          rw [heq] at hrun
          cases hrun
  | stop e now =>
    show StoreWF ((handle_vm_stop st e now).1)
      ∧ ClosedDurOK ((handle_vm_stop st e now).1)
    obtain ⟨hnid, hsess⟩ := handle_vm_stop_sessions st e now
    rcases hsess with hsess | ⟨sess, hlatest, hsess⟩
    · refine ⟨⟨?_, ?_⟩, ?_⟩
      · show (((handle_vm_stop st e now).1.sessions).map
          (fun s => s.id)).Nodup
        rw [hsess]
        exact hnd
      · intro s hsm
        rw [hsess] at hsm
        rw [hnid]
        exact hlt s hsm
      · intro s hsm hr
        rw [hsess] at hsm
        exact h2 s hsm hr
    · constructor
      · constructor
        · show ((handle_vm_stop st e now).1.sessions.map (fun s => s.id)).Nodup
          rw [hsess, map_ids_eq st.sessions _ (stopclose_id sess.id e.stop_time now)]
          exact hnd
        · intro s hs
          rw [hsess] at hs
          obtain ⟨s0, hs0, hfs⟩ := List.mem_map.mp hs
          rw [hnid, ← hfs, stopclose_id sess.id e.stop_time now s0]
          exact hlt s0 hs0
      · intro s hs hrun
        rw [hsess] at hs
        obtain ⟨s0, hs0, hfs⟩ := List.mem_map.mp hs
        by_cases hid : (s0.id == sess.id) = true
        · rw [← hfs, if_pos hid]
          exact ⟨e.stop_time, rfl, rfl⟩
        · rw [← hfs, if_neg hid] at hrun ⊢
          exact h2 s0 hs0 hrun
  | states node ts now vms =>
    show StoreWF (handle_vm_states st node ts now vms)
      ∧ ClosedDurOK (handle_vm_states st node ts now vms)
    obtain ⟨hsess, hnid⟩ := handle_vm_states_sessions st node ts now vms hlt
    have hge := newSessionsAux_snd (openFor st.sessions node) node ts now vms
      st.nextId
    constructor
    · constructor
      · show ((handle_vm_states st node ts now vms).sessions.map
            (fun s => s.id)).Nodup
        rw [hsess, List.map_append]
        apply List.Nodup.append
        · rw [map_ids_eq st.sessions _ (closeIf_id _ ts now)]
          exact hnd
        · exact newSessionsAux_ids_nodup (openFor st.sessions node) node ts
            now vms st.nextId
        · intro a ha hb
          rw [map_ids_eq st.sessions _ (closeIf_id _ ts now)] at ha
          obtain ⟨s0, hs0, hid⟩ := List.mem_map.mp ha
          have h1 := hlt s0 hs0
          obtain ⟨s1, hs1, hid1⟩ := List.mem_map.mp hb
          have h2b := (newSessionsAux_mem_id (openFor st.sessions node) node
            ts now vms st.nextId s1 hs1).1
          omega
      · intro s hs
        rw [hsess] at hs
        rw [hnid]
        rcases List.mem_append.mp hs with h | h
        · obtain ⟨s0, hs0, hfs⟩ := List.mem_map.mp h
          rw [← hfs, closeIf_id]
          have := hlt s0 hs0
          omega
        · exact (newSessionsAux_mem_id (openFor st.sessions node) node ts now
            vms st.nextId s h).2
    · intro s hs hrun
      rw [hsess] at hs
      rcases List.mem_append.mp hs with h | h
      · obtain ⟨s0, hs0, hfs⟩ := List.mem_map.mp h
        rw [← hfs]
        rw [← hfs] at hrun
        unfold closeIf at hrun ⊢
        by_cases hc : ((mainCloseIds (openFor st.sessions node) vms
            ++ finalCloseIds (openFor st.sessions node) vms).contains s0.id) = true
        · rw [if_pos hc]
          exact ⟨ts, rfl, rfl⟩
        · rw [if_neg hc] at hrun ⊢
          exact h2 s0 hs0 hrun
      · have := (newSessionsAux_shape (openFor st.sessions node) node ts now
          vms st.nextId s h).1
        rw [this] at hrun
        cases hrun

theorem openPred_convert (n v : String) (s : VMSession) :
    (s.is_running && s.node == n && s.vm_id == v) = openPred v n s := by
  unfold openPred
  by_cases h1 : s.is_running = true <;>
    by_cases h2 : (s.node == n) = true <;>
      by_cases h3 : (s.vm_id == v) = true <;>
        simp [h1, h2, h3]

theorem applyOp_preserves_single (st : Store) (op : IngestOp)
    (hwf : StoreWF st) (hs : SingleOpen st)
    (hnodup : ∀ node ts now vms, op = IngestOp.states node ts now vms →
      (vms.map (fun vm => vm.vm_id)).Nodup) :
    SingleOpen (applyOp st op) := by
  obtain ⟨hnd, hlt⟩ := hwf
  intro n v
  cases op with
  | register name hostname now =>
    show openCount (register_node st name hostname now) n v ≤ 1
    unfold openCount
    rw [(register_node_sessions st name hostname now).1]
    exact hs n v
  | start e now =>
    show openCount ((handle_vm_start st e now).1) n v ≤ 1
    unfold openCount
    rcases handle_vm_start_sessions st e now with
      ⟨ex, hfind, hsess, hnid⟩ | ⟨hfind, hsess, hnid⟩
    · rcases hsess with hsess | hsess
      · rw [hsess]
        exact hs n v
      · rw [hsess, List.countP_map]
        have hcomp : ((fun s : VMSession =>
            s.is_running && s.node == n && s.vm_id == v) ∘ (fun s =>
              if s.id == ex.id then { s with start_time := e.start_time } else s))
            = (fun s : VMSession =>
                s.is_running && s.node == n && s.vm_id == v) := by
          funext s
          dsimp only [Function.comp]
          by_cases h : (s.id == ex.id) = true
          · rw [if_pos h]
          · rw [if_neg h]
        rw [hcomp]
        exact hs n v
    · rw [hsess, List.countP_append]
      by_cases hkey : n = e.node ∧ v = e.vm_id
      · obtain ⟨hn', hv'⟩ := hkey
        have hzero : st.sessions.countP (fun s =>
            s.is_running && s.node == n && s.vm_id == v) = 0 := by
          rw [List.countP_eq_zero]
          intro s hsm hp
          rw [openPred_convert n v s] at hp
          rw [List.find?_eq_none] at hfind
          refine hfind s hsm ?_
          rw [← hv', ← hn']
          exact hp
        rw [hzero]
        have hone : (([⟨st.nextId, e.vm_id, e.node, e.vm_type, e.start_time,
            none, none, none, true⟩] : List VMSession).countP (fun s =>
              s.is_running && s.node == n && s.vm_id == v)) ≤ 1 :=
          (List.countP_le_length _).trans (by simp)
        omega
      · have hone : (([⟨st.nextId, e.vm_id, e.node, e.vm_type, e.start_time,
            none, none, none, true⟩] : List VMSession).countP (fun s =>
              s.is_running && s.node == n && s.vm_id == v)) = 0 := by
          rw [List.countP_eq_zero]
          intro s hsm hp
          have hseq : s = ⟨st.nextId, e.vm_id, e.node, e.vm_type, e.start_time,
              none, none, none, true⟩ := by simpa using hsm
          rw [hseq] at hp
          rw [Bool.and_eq_true, Bool.and_eq_true] at hp
          exact hkey ⟨(beq_iff_eq.mp hp.1.2).symm, (beq_iff_eq.mp hp.2).symm⟩
        rw [hone]
        have := hs n v
        unfold openCount at this
        omega
  | stop e now =>
    show openCount ((handle_vm_stop st e now).1) n v ≤ 1
    unfold openCount
    rcases (handle_vm_stop_sessions st e now).2 with hsess | ⟨sess, hl, hsess⟩
    · rw [hsess]
      exact hs n v
    · rw [hsess, List.countP_map]
      have hmono : st.sessions.countP ((fun s : VMSession =>
          s.is_running && s.node == n && s.vm_id == v) ∘ (fun s =>
            if s.id == sess.id then closeSession e.stop_time now s else s))
          ≤ st.sessions.countP (fun s : VMSession =>
              s.is_running && s.node == n && s.vm_id == v) := by
        apply countP_mono_pointwise
        intro s hsm hp
        dsimp only [Function.comp] at hp
        by_cases h : (s.id == sess.id) = true
        · rw [if_pos h] at hp
          have hcl : ((closeSession e.stop_time now s).is_running
              && ((closeSession e.stop_time now s).node == n)
              && ((closeSession e.stop_time now s).vm_id == v)) = false := by
            rw [show (closeSession e.stop_time now s).is_running = false
              from rfl]
            rw [Bool.false_and, Bool.false_and]
          rw [hcl] at hp
          cases hp
        · rw [if_neg h] at hp
          exact hp
      exact hmono.trans (hs n v)
  | states node ts now vms =>
    have hkeys := hnodup node ts now vms rfl
    show openCount (handle_vm_states st node ts now vms) n v ≤ 1
    unfold openCount
    obtain ⟨hsess, hnid⟩ := handle_vm_states_sessions st node ts now vms hlt
    rw [hsess, List.countP_append, List.countP_map]
    rw [newSessionsAux_countP]
    have hold : st.sessions.countP ((fun s : VMSession =>
        s.is_running && s.node == n && s.vm_id == v) ∘ (closeIf
          (mainCloseIds (openFor st.sessions node) vms
            ++ finalCloseIds (openFor st.sessions node) vms) ts now))
        ≤ st.sessions.countP (fun s : VMSession =>
            s.is_running && s.node == n && s.vm_id == v) := by
      apply countP_mono_pointwise
      intro s hsm hp
      dsimp only [Function.comp] at hp
      unfold closeIf at hp
      by_cases h : (((mainCloseIds (openFor st.sessions node) vms
          ++ finalCloseIds (openFor st.sessions node) vms)).contains s.id) = true
      · rw [if_pos h] at hp
        have hcl : ((closeSession ts now s).is_running
            && ((closeSession ts now s).node == n)
            && ((closeSession ts now s).vm_id == v)) = false := by
          rw [show (closeSession ts now s).is_running = false from rfl]
          rw [Bool.false_and, Bool.false_and]
        rw [hcl] at hp
        cases hp
      · rw [if_neg h] at hp
        exact hp
    by_cases hq : vms.countP (fun vm => ((vm.status == "running")
        && (dictGet (openFor st.sessions node) vm.vm_id).isNone)
        && ((node == n) && (vm.vm_id == v))) = 0
    · rw [hq]
      have := hs n v
      unfold openCount at this
      omega
    · have hpos : 0 < vms.countP (fun vm => ((vm.status == "running")
          && (dictGet (openFor st.sessions node) vm.vm_id).isNone)
          && ((node == n) && (vm.vm_id == v))) := Nat.pos_of_ne_zero hq
      obtain ⟨vm, hvm, hqvm⟩ := List.countP_pos_iff.mp hpos
      rw [Bool.and_eq_true, Bool.and_eq_true, Bool.and_eq_true] at hqvm
      obtain ⟨⟨hrun, hisnone⟩, hnodeq, hvmid⟩ := hqvm
      have hnode : node = n := beq_iff_eq.mp hnodeq
      have hvv : vm.vm_id = v := beq_iff_eq.mp hvmid
      have hdnone : dictGet (openFor st.sessions node) v = none := by
        rw [← hvv]
        exact Option.isNone_iff_eq_none.mp hisnone
      have hzero : st.sessions.countP (fun s : VMSession =>
          s.is_running && s.node == n && s.vm_id == v) = 0 := by
        rw [List.countP_eq_zero]
        intro s hsm hp
        rw [Bool.and_eq_true, Bool.and_eq_true] at hp
        obtain ⟨⟨hr, hn2⟩, hv2⟩ := hp
        have hso : s ∈ openFor st.sessions node := by
          unfold openFor
          refine List.mem_filter.mpr ⟨hsm, ?_⟩
          rw [Bool.and_eq_true]
          exact ⟨beq_iff_eq.mpr ((beq_iff_eq.mp hn2).trans hnode.symm), hr⟩
        obtain ⟨o, ho, _⟩ := dictGet_isSome_of_mem (openFor st.sessions node)
          s hso v (beq_iff_eq.mp hv2)
        rw [hdnone] at ho
        cases ho
      have hnew_le : vms.countP (fun vm => ((vm.status == "running")
          && (dictGet (openFor st.sessions node) vm.vm_id).isNone)
          && ((node == n) && (vm.vm_id == v))) ≤ 1 := by
        have hre : vms.countP (fun vm => ((vm.status == "running")
            && (dictGet (openFor st.sessions node) vm.vm_id).isNone)
            && ((node == n) && (vm.vm_id == v)))
            = vms.countP (fun vm => ((vm.vm_id == v))
                && (((vm.status == "running")
                  && (dictGet (openFor st.sessions node) vm.vm_id).isNone)
                  && (node == n))) := by
          apply List.countP_congr
          intro x hx
          simp only [Bool.and_eq_true]
          tauto
        rw [hre]
        exact countP_le_one_keys vms (fun vm => vm.vm_id) hkeys v _
      omega

theorem applySeq_wf_dur (ops : List IngestOp) (st : Store)
    (hwf : StoreWF st) (hdur : ClosedDurOK st) :
    StoreWF (applySeq st ops) ∧ ClosedDurOK (applySeq st ops) := by
  induction ops generalizing st with
  | nil => exact ⟨hwf, hdur⟩
  | cons op rest ih =>
    obtain ⟨hwf', hdur'⟩ := applyOp_preserves_wf st op hwf hdur
    exact ih (applyOp st op) hwf' hdur'

theorem applySeq_bundle (ops : List IngestOp) (st : Store)
    (hwf : StoreWF st) (hdur : ClosedDurOK st) (hs : SingleOpen st)
    (hnodup : StatesNodup ops) :
    StoreWF (applySeq st ops) ∧ ClosedDurOK (applySeq st ops)
      ∧ SingleOpen (applySeq st ops) := by
  induction ops generalizing st with
  | nil => exact ⟨hwf, hdur, hs⟩
  | cons op rest ih =>
    have hop : ∀ node ts now vms, op = IngestOp.states node ts now vms →
        (vms.map (fun vm => vm.vm_id)).Nodup :=
      fun node ts now vms heq =>
        hnodup op (List.mem_cons_self op rest) node ts now vms heq
    obtain ⟨hwf', hdur'⟩ := applyOp_preserves_wf st op hwf hdur
    have hs' := applyOp_preserves_single st op hwf hs hop
    exact ih (applyOp st op) hwf' hdur' hs'
      (fun op' hmem => hnodup op' (List.mem_cons_of_mem op hmem))

theorem emptyStore_wf : StoreWF emptyStore :=
  ⟨List.nodup_nil, by intro s hs; cases hs⟩

theorem emptyStore_dur : ClosedDurOK emptyStore := by
  intro s hs
  cases hs

theorem emptyStore_single : SingleOpen emptyStore := by
  intro n v
  show (0 : Nat) ≤ 1
  omega

/-- C1: starting from an empty store, after any serially-executed sequence of
ingest operations whose snapshot payloads carry pairwise-distinct vm_ids (a
snapshot is a map keyed by vm_id), every `(node, vm_id)` pair has at most one
session row with `is_running = true`. -/
theorem claim1_single_open (ops : List IngestOp) (h : StatesNodup ops)
    (n v : String) :
    openCount (applySeq emptyStore ops) n v ≤ 1 :=
  (applySeq_bundle ops emptyStore emptyStore_wf emptyStore_dur
    emptyStore_single h).2.2 n v

/-- C1 witness: a start event followed by a snapshot that stops VM 1 and
reports VM 2 running. -/
theorem claim1_single_open_witness :
    StatesNodup [IngestOp.start ⟨"A", "1", none, "qemu", 10⟩ 10,
      IngestOp.states "A" 50 60 [⟨"1", "qemu", none, "stopped", 0⟩,
        ⟨"2", "qemu", none, "running", 5⟩]] ∧
    openCount (applySeq emptyStore
      [IngestOp.start ⟨"A", "1", none, "qemu", 10⟩ 10,
       IngestOp.states "A" 50 60 [⟨"1", "qemu", none, "stopped", 0⟩,
         ⟨"2", "qemu", none, "running", 5⟩]]) "A" "2" ≤ 1 := by
  have hnod : StatesNodup [IngestOp.start ⟨"A", "1", none, "qemu", 10⟩ 10,
      IngestOp.states "A" 50 60 [⟨"1", "qemu", none, "stopped", 0⟩,
        ⟨"2", "qemu", none, "running", 5⟩]] := by
    intro op hop node ts now vms heq
    simp only [List.mem_cons, List.mem_singleton] at hop
    rcases hop with rfl | rfl | hop
    · cases heq
    · cases heq
      decide
    · cases hop
  exact ⟨hnod, claim1_single_open _ hnod "A" "2"⟩

/-- C5 (amended): every closed session of any store reachable from the empty
store by ingest operations carries
`duration_seconds = end_time - start_time`, exactly as `calculate_duration`
writes it, with no `max(0, _)` clamp — the value is negative whenever the
close time precedes `start_time` (see the counterexample). -/
theorem claim5_closed_duration (ops : List IngestOp) :
    ∀ s ∈ (applySeq emptyStore ops).sessions, s.is_running = false →
      ∃ e, s.end_time = some e ∧ s.duration_seconds = some (e - s.start_time) :=
  (applySeq_wf_dur ops emptyStore emptyStore_wf emptyStore_dur).2

/-- C5 witness: the closed-duration form evaluated on the stop-before-start
scenario of the counterexample. -/
theorem claim5_closed_duration_witness :
    ((⟨1, "42", "A", "qemu", 100, some 40, some (-60), none, false⟩ : VMSession)
        ∈ (applySeq emptyStore
          [IngestOp.start ⟨"A", "42", none, "qemu", 100⟩ 100,
           IngestOp.stop ⟨"A", "42", 40⟩ 140]).sessions) ∧
    (∃ e, (⟨1, "42", "A", "qemu", 100, some 40, some (-60), none, false⟩
        : VMSession).end_time = some e ∧
      (⟨1, "42", "A", "qemu", 100, some 40, some (-60), none, false⟩
        : VMSession).duration_seconds
        = some (e - (⟨1, "42", "A", "qemu", 100, some 40, some (-60), none,
            false⟩ : VMSession).start_time)) := by
  have hmem : (⟨1, "42", "A", "qemu", 100, some 40, some (-60), none, false⟩
      : VMSession) ∈ (applySeq emptyStore
        [IngestOp.start ⟨"A", "42", none, "qemu", 100⟩ 100,
         IngestOp.stop ⟨"A", "42", 40⟩ 140]).sessions := by
    decide
  exact ⟨hmem, claim5_closed_duration _ _ hmem rfl⟩

/-- C4 (amended): in vm_states reconciliation, every running snapshot VM with
no open dict entry gets a fresh open session whose `start_time` is the
manager's wall-clock `now` minus the uptime when `uptime > 0`, and the
snapshot timestamp when `uptime = 0` — not `snapshot_ts - uptime` as the
claim stated (see the counterexample). -/
theorem claim4_snapshot_backdate (st : Store) (node : String) (ts now : Int)
    (vms : List VMStateData) (vm : VMStateData)
    (hlt : ∀ s ∈ st.sessions, s.id < st.nextId)
    (hvm : vm ∈ vms) (hrun : vm.status = "running")
    (hnone : dictGet (openFor st.sessions node) vm.vm_id = none) :
    ∃ s ∈ (handle_vm_states st node ts now vms).sessions,
      s.vm_id = vm.vm_id ∧ s.is_running = true ∧ s.node = node ∧
      s.start_time = (if vm.uptime > 0 then now - vm.uptime else ts) := by
  obtain ⟨hsess, _⟩ := handle_vm_states_sessions st node ts now vms hlt
  obtain ⟨s, hsmem, hprops⟩ := newSessionsAux_exists (openFor st.sessions node)
    node ts now vms st.nextId vm hvm (beq_iff_eq.mpr hrun) hnone
  refine ⟨s, ?_, hprops⟩
  rw [hsess]
  exact List.mem_append_right _ hsmem

/-- C4 witness: the amended backdating rule at the counterexample's input
(snapshot at 0 handled at wall-clock 1000, uptime 100). -/
theorem claim4_snapshot_backdate_witness :
    ((∀ s ∈ emptyStore.sessions, s.id < emptyStore.nextId) ∧
     (⟨"7", "qemu", none, "running", 100⟩ : VMStateData)
        ∈ [(⟨"7", "qemu", none, "running", 100⟩ : VMStateData)] ∧
     (⟨"7", "qemu", none, "running", 100⟩ : VMStateData).status = "running" ∧
     dictGet (openFor emptyStore.sessions "A")
       (⟨"7", "qemu", none, "running", 100⟩ : VMStateData).vm_id = none) ∧
    (∃ s ∈ (handle_vm_states emptyStore "A" 0 1000
        [⟨"7", "qemu", none, "running", 100⟩]).sessions,
      s.vm_id = (⟨"7", "qemu", none, "running", 100⟩ : VMStateData).vm_id ∧
      s.is_running = true ∧ s.node = "A" ∧
      s.start_time = (if (⟨"7", "qemu", none, "running", 100⟩
          : VMStateData).uptime > 0
        then 1000 - (⟨"7", "qemu", none, "running", 100⟩
          : VMStateData).uptime
        else 0)) := by
  refine ⟨⟨?_, ?_, rfl, rfl⟩, ?_⟩
  · intro s hs
    cases hs
  · exact List.mem_singleton.mpr rfl
  · exact claim4_snapshot_backdate emptyStore "A" 0 1000
      [⟨"7", "qemu", none, "running", 100⟩] ⟨"7", "qemu", none, "running", 100⟩
      (by intro s hs; cases hs) (List.mem_singleton.mpr rfl) rfl rfl

/-!  Snapshot convergence (claim C2). -/

theorem mem_runningIds_iff (vms : List VMStateData) (v : String) :
    v ∈ runningIds vms ↔ ∃ vm ∈ vms, vm.vm_id = v ∧ vm.status = "running" := by
  unfold runningIds
  constructor
  · intro h
    obtain ⟨vm, hvm, hid⟩ := List.mem_map.mp h
    obtain ⟨hmem, hrun⟩ := List.mem_filter.mp hvm
    exact ⟨vm, hmem, hid, beq_iff_eq.mp hrun⟩
  · rintro ⟨vm, hmem, hid, hrun⟩
    exact List.mem_map.mpr ⟨vm,
      List.mem_filter.mpr ⟨hmem, beq_iff_eq.mpr hrun⟩, hid⟩

theorem openFor_iff (sessions : List VMSession) (node : String)
    (s : VMSession) :
    s ∈ openFor sessions node
      ↔ s ∈ sessions ∧ s.node = node ∧ s.is_running = true := by
  unfold openFor
  rw [List.mem_filter, Bool.and_eq_true]
  constructor
  · rintro ⟨h1, h2, h3⟩
    exact ⟨h1, beq_iff_eq.mp h2, h3⟩
  · rintro ⟨h1, h2, h3⟩
    exact ⟨h1, beq_iff_eq.mpr h2, h3⟩

theorem vm_states_convergence (st : Store) (node : String) (ts now : Int)
    (vms : List VMStateData)
    (hwf : StoreWF st) (hso : SingleOpen st)
    (hkeys : (vms.map (fun vm => vm.vm_id)).Nodup) :
    (∀ v, (∃ s ∈ (handle_vm_states st node ts now vms).sessions,
        s.node = node ∧ s.vm_id = v ∧ s.is_running = true)
      ↔ v ∈ runningIds vms)
    ∧ (∀ s ∈ st.sessions, s.node = node → s.is_running = true →
        s.vm_id ∉ runningIds vms →
        ∃ s' ∈ (handle_vm_states st node ts now vms).sessions,
          s'.id = s.id ∧ s'.is_running = false ∧ s'.end_time = some ts) := by
  obtain ⟨hnd, hlt⟩ := hwf
  obtain ⟨hsess, hnid⟩ := handle_vm_states_sessions st node ts now vms hlt
  have huniq : ∀ v a b, a ∈ st.sessions → b ∈ st.sessions →
      (a.is_running = true ∧ a.node = node ∧ a.vm_id = v) →
      (b.is_running = true ∧ b.node = node ∧ b.vm_id = v) → a = b := by
    intro v a b ha hb pa pb
    by_contra hne
    have h2 := countP_ge_two st.sessions
      (fun s => s.is_running && s.node == node && s.vm_id == v) a b ha hb hne
      (by
        rw [Bool.and_eq_true, Bool.and_eq_true]
        exact ⟨⟨pa.1, beq_iff_eq.mpr pa.2.1⟩, beq_iff_eq.mpr pa.2.2⟩)
      (by
        rw [Bool.and_eq_true, Bool.and_eq_true]
        exact ⟨⟨pb.1, beq_iff_eq.mpr pb.2.1⟩, beq_iff_eq.mpr pb.2.2⟩)
    have h1 := hso node v
    unfold openCount at h1
    omega
  have hin_ids : ∀ s, s ∈ openFor st.sessions node →
      s.vm_id ∉ runningIds vms →
      s.id ∈ mainCloseIds (openFor st.sessions node) vms
        ++ finalCloseIds (openFor st.sessions node) vms := by
    intro s hs hnr
    obtain ⟨hsmem, hsnode, hsrun⟩ := (openFor_iff st.sessions node s).mp hs
    obtain ⟨o, ho, homem, hovid⟩ := dictGet_isSome_of_mem
      (openFor st.sessions node) s hs s.vm_id rfl
    obtain ⟨homem', honode, horun⟩ := (openFor_iff st.sessions node o).mp homem
    have hos : o = s := huniq s.vm_id o s homem' hsmem
      ⟨horun, honode, hovid⟩ ⟨hsrun, hsnode, rfl⟩
    by_cases hk : s.vm_id ∈ vms.map (fun vm => vm.vm_id)
    · obtain ⟨vm, hvmmem, hvmid⟩ := List.mem_map.mp hk
      have hvm_not_run : (vm.status == "running") = false := by
        cases hstat : (vm.status == "running") with
        | false => rfl
        | true =>
          exact absurd ((mem_runningIds_iff vms s.vm_id).mpr
            ⟨vm, hvmmem, hvmid, beq_iff_eq.mp hstat⟩) hnr
      refine List.mem_append_left _ ?_
      have hm := mem_mainCloseIds_intro (openFor st.sessions node) vms vm o
        hvmmem hvm_not_run (by rw [hvmid]; exact ho)
      rw [hos] at hm
      exact hm
    · refine List.mem_append_right _ ?_
      have hkk : s.vm_id ∈ dictKeys (openFor st.sessions node) :=
        List.mem_map_of_mem (fun s => s.vm_id) hs
      have hcont : (vms.map (fun vm => vm.vm_id)).contains s.vm_id = false :=
        contains_false_iff.mpr hk
      have hm := mem_finalCloseIds_intro (openFor st.sessions node) vms
        s.vm_id o hkk hcont ho
      rw [hos] at hm
      exact hm
  have hnot_ids : ∀ s, s ∈ openFor st.sessions node →
      s.vm_id ∈ runningIds vms →
      s.id ∉ mainCloseIds (openFor st.sessions node) vms
        ++ finalCloseIds (openFor st.sessions node) vms := by
    intro s hs hr hin
    obtain ⟨hsmem, hsnode, hsrun⟩ := (openFor_iff st.sessions node s).mp hs
    rcases List.mem_append.mp hin with hmn | hfn
    · obtain ⟨vm', hvm', hvmns, o', ho', hoid⟩ :=
        mem_mainCloseIds_elim (openFor st.sessions node) vms _ hmn
      obtain ⟨homem', hovid'⟩ := dictGet_mem (openFor st.sessions node)
        vm'.vm_id o' ho'
      have ho'sess : o' ∈ st.sessions :=
        ((openFor_iff st.sessions node o').mp homem').1
      have ho'eq : o' = s := List.inj_on_of_nodup_map hnd ho'sess hsmem hoid
      have hkeyeq : vm'.vm_id = s.vm_id := by
        rw [← hovid', ho'eq]
      obtain ⟨vm'', hvm'', hvid'', hrun''⟩ :=
        (mem_runningIds_iff vms s.vm_id).mp hr
      have hvmeq : vm' = vm'' := List.inj_on_of_nodup_map hkeys hvm' hvm''
        (by rw [hkeyeq, hvid''])
      rw [hvmeq] at hvmns
      rw [beq_iff_eq.mpr hrun''] at hvmns
      cases hvmns
    · obtain ⟨k, hk, hkc, o'', ho'', hoid⟩ :=
        mem_finalCloseIds_elim (openFor st.sessions node) vms _ hfn
      obtain ⟨homem'', hovid''⟩ := dictGet_mem (openFor st.sessions node)
        k o'' ho''
      have ho''sess : o'' ∈ st.sessions :=
        ((openFor_iff st.sessions node o'').mp homem'').1
      have ho''eq : o'' = s := List.inj_on_of_nodup_map hnd ho''sess hsmem hoid
      have hkv : k = s.vm_id := by
        rw [← hovid'', ho''eq]
      obtain ⟨vm'', hvm'', hvid'', _⟩ := (mem_runningIds_iff vms s.vm_id).mp hr
      have hmemk : s.vm_id ∈ vms.map (fun vm => vm.vm_id) :=
        hvid'' ▸ List.mem_map_of_mem (fun vm => vm.vm_id) hvm''
      rw [hkv] at hkc
      exact absurd hmemk (contains_false_iff.mp hkc)
  constructor
  · intro v
    constructor
    · rintro ⟨s', hs', hnode', hvid', hrun'⟩
      rw [hsess] at hs'
      rcases List.mem_append.mp hs' with hmap | hnew
      · obtain ⟨s0, hs0, hfs⟩ := List.mem_map.mp hmap
        by_cases hc : ((mainCloseIds (openFor st.sessions node) vms
            ++ finalCloseIds (openFor st.sessions node) vms).contains s0.id)
            = true
        · exfalso
          rw [← hfs] at hrun'
          unfold closeIf at hrun'
          rw [if_pos hc] at hrun'
          rw [show (closeSession ts now s0).is_running = false from rfl]
            at hrun'
          cases hrun'
        · have hs'eq : s' = s0 := by
            rw [← hfs]
            unfold closeIf
            rw [if_neg hc]
          have hs0open : s0 ∈ openFor st.sessions node :=
            (openFor_iff st.sessions node s0).mpr
              ⟨hs0, by rw [← hs'eq]; exact hnode', by rw [← hs'eq]; exact hrun'⟩
          by_contra hnr
          have hz := hin_ids s0 hs0open (by
            rw [show s0.vm_id = v from by rw [← hs'eq]; exact hvid']
            exact hnr)
          exact hc (contains_iff_mem.mpr hz)
      · obtain ⟨hrun0, hnode0, vm, hvm, hvrun, hnone, hvid0, _⟩ :=
          newSessionsAux_shape (openFor st.sessions node) node ts now vms
            st.nextId s' hnew
        refine (mem_runningIds_iff vms v).mpr
          ⟨vm, hvm, ?_, beq_iff_eq.mp hvrun⟩
        rw [← hvid0, hvid']
    · intro hv
      obtain ⟨vm, hvm, hvid, hvrun⟩ := (mem_runningIds_iff vms v).mp hv
      cases hd : dictGet (openFor st.sessions node) v with
      | none =>
        obtain ⟨s, hsmem, hsvid, hsrun, hsnode, _⟩ := newSessionsAux_exists
          (openFor st.sessions node) node ts now vms st.nextId vm hvm
          (beq_iff_eq.mpr hvrun) (by rw [hvid]; exact hd)
        refine ⟨s, ?_, hsnode, by rw [hsvid, hvid], hsrun⟩
        rw [hsess]
        exact List.mem_append_right _ hsmem
      | some o =>
        obtain ⟨homem, hovid⟩ := dictGet_mem (openFor st.sessions node) v o hd
        obtain ⟨hosess, honode, horun⟩ :=
          (openFor_iff st.sessions node o).mp homem
        have hnotin := hnot_ids o homem (by rw [hovid]; exact hv)
        refine ⟨closeIf (mainCloseIds (openFor st.sessions node) vms
          ++ finalCloseIds (openFor st.sessions node) vms) ts now o,
          ?_, ?_, ?_, ?_⟩
        · rw [hsess]
          exact List.mem_append_left _ (List.mem_map_of_mem _ hosess)
        · rw [closeIf_not_mem _ ts now o hnotin]
          exact honode
        · rw [closeIf_not_mem _ ts now o hnotin]
          exact hovid
        · rw [closeIf_not_mem _ ts now o hnotin]
          exact horun
  · intro s hsmem hsnode hsrun hnr
    have hsopen : s ∈ openFor st.sessions node :=
      (openFor_iff st.sessions node s).mpr ⟨hsmem, hsnode, hsrun⟩
    have hid := hin_ids s hsopen hnr
    have hcont := contains_iff_mem.mpr hid
    refine ⟨closeIf (mainCloseIds (openFor st.sessions node) vms
      ++ finalCloseIds (openFor st.sessions node) vms) ts now s,
      ?_, ?_, ?_, ?_⟩
    · rw [hsess]
      exact List.mem_append_left _ (List.mem_map_of_mem _ hsmem)
    · unfold closeIf
      rw [if_pos hcont]
      rfl
    · unfold closeIf
      rw [if_pos hcont]
      rfl
    · unfold closeIf
      rw [if_pos hcont]
      rfl

/-- C2: starting from an empty store, after any sequence of single vm_start
and vm_stop events followed by one `vm_states(node, snapshot_ts, S)` call
whose payload has pairwise-distinct vm_ids, the set of vm_ids holding an open
session for that node is exactly the set of vm_ids reported running by `S`,
and every previously open session of the node whose VM is non-running in `S`
or absent from it is closed with `end_time = snapshot_ts`. -/
theorem claim2_snapshot_convergence (evs : List IngestOp)
    (hev : ∀ op ∈ evs, op.isEvent) (node : String) (ts now : Int)
    (vms : List VMStateData)
    (hkeys : (vms.map (fun vm => vm.vm_id)).Nodup) :
    (∀ v, (∃ s ∈ (handle_vm_states (applySeq emptyStore evs) node ts now
        vms).sessions,
        s.node = node ∧ s.vm_id = v ∧ s.is_running = true)
      ↔ v ∈ runningIds vms)
    ∧ (∀ s ∈ (applySeq emptyStore evs).sessions, s.node = node →
        s.is_running = true → s.vm_id ∉ runningIds vms →
        ∃ s' ∈ (handle_vm_states (applySeq emptyStore evs) node ts now
          vms).sessions,
          s'.id = s.id ∧ s'.is_running = false ∧ s'.end_time = some ts) := by
  have hnodup : StatesNodup evs := by
    intro op hop node' ts' now' vms' heq
    have hevop := hev op hop
    rw [heq] at hevop
    exact False.elim hevop
  obtain ⟨hwf, _, hso⟩ := applySeq_bundle evs emptyStore emptyStore_wf
    emptyStore_dur emptyStore_single hnodup
  exact vm_states_convergence (applySeq emptyStore evs) node ts now vms
    hwf hso hkeys

theorem claim2_snapshot_convergence_witness :
    (∀ v, (∃ s ∈ (handle_vm_states (applySeq emptyStore c2Evs) "A" 100 105
        c2Vms).sessions,
        s.node = "A" ∧ s.vm_id = v ∧ s.is_running = true)
      ↔ v ∈ runningIds c2Vms)
    ∧ (∀ s ∈ (applySeq emptyStore c2Evs).sessions, s.node = "A" →
        s.is_running = true → s.vm_id ∉ runningIds c2Vms →
        ∃ s' ∈ (handle_vm_states (applySeq emptyStore c2Evs) "A" 100 105
          c2Vms).sessions,
          s'.id = s.id ∧ s'.is_running = false ∧ s'.end_time = some 100) :=
  claim2_snapshot_convergence c2Evs
    (by
      intro op hop
      simp only [c2Evs, List.mem_singleton] at hop
      rw [hop]
      trivial)
    "A" 100 105 c2Vms (by decide)
